import Mathlib

/-!
Verification development for the `pgarchive` crate: a decoder for the
PostgreSQL `pg_dump` custom archive format.

The definitions below are a shallow embedding of the Rust sources:

* `src/io.rs` — the primitive codec (`ReadConfig`, `read_int`, `read_string`,
  `read_offset`, `read_data`, `DataReader`);
* `src/toc.rs` — the TOC entry decoder (`TocEntry::parse`, `read_toc`);
* `src/archive.rs` + `src/types.rs` — the archive decoder (`Archive::parse`);
* `src/header.rs` — the older revision of the same decoder (`Header::parse`).

Modelling conventions:

* Byte streams are `List Nat` (each element is one `u8`, so `< 256` in any
  physically possible stream; theorems add that bound where it matters).
* Rust strings are kept as their UTF-8 byte lists.
* `io::Result` is modelled as `Except String`, the error being the
  `io::Error` message; `ArchiveError` / the older `header.rs` error enum are
  separate inductives, and the Rust `From<io::Error>` conversion performed by
  `?` is the explicit `pbind` / `abind` / `hbind` combinators below.
* Machine integer arithmetic follows Rust release-mode semantics:
  `i64` addition/negation wraps two's-complement (`wrap64`), `u64`/`u32`
  casts truncate (`toU64`, `toU32`, `toI32`), and shift amounts are masked
  modulo the bit width (`% 64`), exactly as `<<` behaves on `i64`/`u64`
  when overflow checks are disabled.
-/

deriving instance DecidableEq for Except

namespace PgArchive

/-- Two's-complement wrap into the signed 64-bit range: Rust release-mode
`i64` addition/negation semantics. -/
def wrap64 (x : Int) : Int := (x + 2 ^ 63) % 2 ^ 64 - 2 ^ 63

/-- Rust `as u64` cast of an `i64` value (truncating two's complement). -/
def toU64 (x : Int) : Nat := (x % 2 ^ 64).toNat

/-- Rust `as u32` cast of an `i64` value (truncating two's complement). -/
def toU32 (x : Int) : Nat := (x % 2 ^ 32).toNat

/-- Rust `as i32` cast of an `i64` value (truncating two's complement). -/
def toI32 (x : Int) : Int := (x + 2 ^ 31) % 2 ^ 32 - 2 ^ 31

/-- `pub type Version = (u8, u8, u8)` from `src/types.rs` / `src/header.rs`. -/
abbrev Version := Nat × Nat × Nat

/-- Strict lexicographic order on version triples, as Rust derives `Ord` for
`(u8, u8, u8)`. -/
def versionLt (a b : Version) : Bool :=
  Nat.blt a.1 b.1 ||
    (Nat.beq a.1 b.1 &&
      (Nat.blt a.2.1 b.2.1 || (Nat.beq a.2.1 b.2.1 && Nat.blt a.2.2 b.2.2)))

/-- `K_VERS_1_10` from `src/archive.rs`. -/
def K_VERS_1_10 : Version := (1, 10, 0)

/-- `K_VERS_1_15` from `src/archive.rs`. -/
def K_VERS_1_15 : Version := (1, 15, 0)

/-- `K_VERS_1_16` from `src/archive.rs`. -/
def K_VERS_1_16 : Version := (1, 16, 0)

/-- `MIN_SUPPORTED_VERSION` from `src/header.rs`. -/
def MIN_SUPPORTED_VERSION : Version := (1, 10, 0)

/-- `MAX_SUPPORTED_VERSION` from `src/header.rs`. -/
def MAX_SUPPORTED_VERSION : Version := (1, 15, 0)

/-- `CompressionMethod` from `src/types.rs` (the `Gzip` variant carries the
compression level). -/
inductive CompressionMethod where
  | None
  | Gzip (level : Int)
  | LZ4
  | ZSTD
deriving DecidableEq

/-- `Offset` from `src/types.rs`; `PosSet` carries a `u64` file position. -/
inductive Offset where
  | Unknown
  | PosNotSet
  | PosSet (pos : Nat)
  | NoData
deriving DecidableEq

/-- `BlockType` from `src/types.rs` (`Data = 1`, `Blob = 3`). -/
inductive BlockType where
  | Data
  | Blob
deriving DecidableEq

/-- `TryFrom<u8> for BlockType` from `src/types.rs`. -/
def blockTypeFromByte (b : Nat) : Option BlockType :=
  if b = 1 then some BlockType.Data
  else if b = 3 then some BlockType.Blob
  else Option.none

/-- `Section` from `src/types.rs`, with discriminants 1–4. -/
inductive Section where
  | None
  | PreData
  | Data
  | PostData
deriving DecidableEq

/-- `TryFrom<i64> for Section` from `src/types.rs` (`None = 1`, `PreData = 2`,
`Data = 3`, `PostData = 4`). -/
def sectionFromInt (v : Int) : Option Section :=
  if v = 1 then some Section.None
  else if v = 2 then some Section.PreData
  else if v = 3 then some Section.Data
  else if v = 4 then some Section.PostData
  else Option.none

/-- `TryFrom<u8> for CompressionMethod` from `src/types.rs`
(`0 ⇒ None`, `1 ⇒ Gzip(0)`, `2 ⇒ LZ4`, `3 ⇒ ZSTD`). -/
def compressionFromByte (b : Nat) : Option CompressionMethod :=
  if b = 0 then some CompressionMethod.None
  else if b = 1 then some (CompressionMethod.Gzip 0)
  else if b = 2 then some CompressionMethod.LZ4
  else if b = 3 then some CompressionMethod.ZSTD
  else Option.none

/-- `ArchiveError` from `src/types.rs`; the `IOError` variant holds the
underlying `io::Error` rendered as its message string. -/
inductive ArchiveError where
  | IOError (msg : String)
  | InvalidData (msg : String)
  | InvalidEntryData (id : Int) (msg : String)
  | NoDataPresent
  | BlobNotSupported
  | UnsupportedVersionError (v : Version)
  | CompressionMethodNotSupported (m : CompressionMethod)
deriving DecidableEq

/-- The `?` operator applied to an `io::Result` inside a function returning
`Result<_, ArchiveError>`: on error, convert through
`From<io::Error> for ArchiveError`; on success, continue. -/
def pbind {α β : Type} (x : Except String α)
    (f : α → Except ArchiveError β) : Except ArchiveError β :=
  match x with
  | .error e => .error (ArchiveError.IOError e)
  | .ok a => f a

/-- The `?` operator applied to a `Result<_, ArchiveError>` intermediate. -/
def abind {α β : Type} (x : Except ArchiveError α)
    (f : α → Except ArchiveError β) : Except ArchiveError β :=
  match x with
  | .error e => .error e
  | .ok a => f a

/-- `cfg.read_int(f)?.try_into().or(Err(InvalidData("invalid section type")))?`
from `TocEntry::parse` — the fallible section conversion. -/
def sectionOrInvalid (v : Int) : Except ArchiveError Section :=
  match sectionFromInt v with
  | some sec => .ok sec
  | Option.none => .error (ArchiveError.InvalidData ("invalid section type"))

/-- `read_byte(f)?.try_into().or(Err(InvalidData("invalid compression method")))?`
from `Archive::parse` — the fallible compression-tag conversion. -/
def compressionByteOrInvalid (b : Nat) : Except ArchiveError CompressionMethod :=
  match compressionFromByte b with
  | some c => .ok c
  | Option.none => .error (ArchiveError.InvalidData ("invalid compression method"))

/-- `ReadConfig` from `src/io.rs`: the self-describing codec widths. -/
structure ReadConfig where
  int_size : Nat
  offset_size : Nat
deriving DecidableEq

/-- `ReadConfig::new` — both widths start unset (zero). -/
def ReadConfig.new : ReadConfig := ⟨0, 0⟩

/-- `Read::read_exact` over a byte-list stream: take `n` bytes or fail with
the standard unexpected-eof message. -/
def readExact (n : Nat) (s : List Nat) : Except String (List Nat × List Nat) :=
  if n ≤ s.length then .ok (s.take n, s.drop n)
  else .error ("failed to fill whole buffer")

/-- `ReadConfig::read_byte` from `src/io.rs`: one byte, no width needed. -/
def ReadConfig.read_byte (_ : ReadConfig) (s : List Nat) :
    Except String (Nat × List Nat) :=
  match s with
  | [] => .error ("failed to fill whole buffer")
  | b :: rest => .ok (b, rest)

/-- The magnitude accumulation loop of the free function `read_int` in
`src/io.rs`: `result += (buffer[i + 1] as i64) << (i * 8)`, with `i64`
wrapping addition and masked shift (release semantics). -/
def accumInt : List Nat → Nat → Int → Int
  | [], _, acc => acc
  | b :: bs, i, acc =>
      accumInt bs (i + 1) (wrap64 (acc + wrap64 ((b : Int) * 2 ^ (8 * i % 64))))

/-- The free function `read_int` from `src/io.rs`: sign byte followed by
`int_size` little-endian magnitude bytes; fails when `int_size` is zero. -/
def read_int (s : List Nat) (int_size : Nat) : Except String (Int × List Nat) :=
  if int_size = 0 then .error ("integer size unknown")
  else
    match readExact (int_size + 1) s with
    | .error e => .error e
    | .ok (buffer, rest) =>
        let is_negative := buffer.headD 0 ≠ 0
        let result := accumInt buffer.tail 0 0
        .ok (if is_negative then wrap64 (-result) else result, rest)

/-- `ReadConfig::read_int` from `src/io.rs`. -/
def ReadConfig.read_int (cfg : ReadConfig) (s : List Nat) :
    Except String (Int × List Nat) :=
  PgArchive.read_int s cfg.int_size

/-- UTF-8 continuation byte (`0x80..=0xBF`). -/
def isUtf8Cont (b : Nat) : Bool := 0x80 ≤ b && b ≤ 0xBF

/-- UTF-8 validity of a byte list, as checked by Rust `String::from_utf8`
(shortest form enforced, surrogates excluded). -/
def validUtf8 : List Nat → Bool
  | [] => true
  | b :: r =>
      if b ≤ 0x7F then validUtf8 r
      else if 0xC2 ≤ b && b ≤ 0xDF then
        match r with
        | c1 :: r1 => isUtf8Cont c1 && validUtf8 r1
        | [] => false
      else if b = 0xE0 then
        match r with
        | c1 :: c2 :: r2 =>
            (0xA0 ≤ c1 && c1 ≤ 0xBF) && isUtf8Cont c2 && validUtf8 r2
        | _ => false
      else if (0xE1 ≤ b && b ≤ 0xEC) || (0xEE ≤ b && b ≤ 0xEF) then
        match r with
        | c1 :: c2 :: r2 => isUtf8Cont c1 && isUtf8Cont c2 && validUtf8 r2
        | _ => false
      else if b = 0xED then
        match r with
        | c1 :: c2 :: r2 =>
            (0x80 ≤ c1 && c1 ≤ 0x9F) && isUtf8Cont c2 && validUtf8 r2
        | _ => false
      else if b = 0xF0 then
        match r with
        | c1 :: c2 :: c3 :: r3 =>
            (0x90 ≤ c1 && c1 ≤ 0xBF) && isUtf8Cont c2 && isUtf8Cont c3 &&
              validUtf8 r3
        | _ => false
      else if 0xF1 ≤ b && b ≤ 0xF3 then
        match r with
        | c1 :: c2 :: c3 :: r3 =>
            isUtf8Cont c1 && isUtf8Cont c2 && isUtf8Cont c3 && validUtf8 r3
        | _ => false
      else if b = 0xF4 then
        match r with
        | c1 :: c2 :: c3 :: r3 =>
            (0x80 ≤ c1 && c1 ≤ 0x8F) && isUtf8Cont c2 && isUtf8Cont c3 &&
              validUtf8 r3
        | _ => false
      else false

/-- `ReadConfig::read_string` from `src/io.rs`: varint length, `-1` means
empty, other negative lengths are invalid, body validated as UTF-8. The
result keeps the string's UTF-8 bytes. -/
def ReadConfig.read_string (cfg : ReadConfig) (s : List Nat) :
    Except String (List Nat × List Nat) :=
  match cfg.read_int s with
  | .error e => .error e
  | .ok (len, s1) =>
      if len = -1 then .ok ([], s1)
      else if len < 0 then .error ("invalid string length")
      else
        match readExact len.toNat s1 with
        | .error e => .error e
        | .ok (buffer, s2) =>
            if validUtf8 buffer then .ok (buffer, s2)
            else .error ("invalid utf-8 sequence")

/-- `ReadConfig::read_int_bool` from `src/io.rs`: `read_int` mapped to
`v != 0`. -/
def ReadConfig.read_int_bool (cfg : ReadConfig) (s : List Nat) :
    Except String (Bool × List Nat) :=
  match cfg.read_int s with
  | .error e => .error e
  | .ok (v, s1) => .ok (decide (v ≠ 0), s1)

/-- The UTF-8 bytes of the literal `"true"`. -/
def trueBytes : List Nat := [0x74, 0x72, 0x75, 0x65]

/-- `ReadConfig::read_string_bool` from `src/io.rs`: `read_string` mapped to
`v == "true"`. -/
def ReadConfig.read_string_bool (cfg : ReadConfig) (s : List Nat) :
    Except String (Bool × List Nat) :=
  match cfg.read_string s with
  | .error e => .error e
  | .ok (v, s1) => .ok (decide (v = trueBytes), s1)

/-- Decimal-digit accumulation used by `from_str_radix` with radix 10. -/
def parseDigitsAux : List Nat → Nat → Option Nat
  | [], acc => some acc
  | c :: r, acc =>
      if 0x30 ≤ c && c ≤ 0x39 then parseDigitsAux r (acc * 10 + (c - 0x30))
      else Option.none

/-- A non-empty run of decimal digits, as required by `from_str_radix`. -/
def parseDigits (l : List Nat) : Option Nat :=
  match l with
  | [] => Option.none
  | _ => parseDigitsAux l 0

/-- Rust `u64::from_str_radix(s, 10)`: optional leading `+`, at least one
digit, no `-` sign, value must fit in `u64`. -/
def u64FromStrRadix10 (s : List Nat) : Option Nat :=
  match s with
  | [] => Option.none
  | c :: rest =>
      match parseDigits (if c = 0x2B then rest else s) with
      | Option.none => Option.none
      | some v => if v < 2 ^ 64 then some v else Option.none

/-- Rust `i64::from_str_radix(s, 10)`: optional leading `+` or `-`, at least
one digit, value must fit in `i64` (note that a `-` sign IS accepted). -/
def i64FromStrRadix10 (s : List Nat) : Option Int :=
  match s with
  | [] => Option.none
  | c :: rest =>
      if c = 0x2D then
        match parseDigits rest with
        | Option.none => Option.none
        | some v => if v ≤ 2 ^ 63 then some (-(v : Int)) else Option.none
      else
        match parseDigits (if c = 0x2B then rest else s) with
        | Option.none => Option.none
        | some v => if v ≤ 2 ^ 63 - 1 then some (v : Int) else Option.none

/-- `ReadConfig::read_oid` from `src/io.rs`: a string parsed as a base-10
`u64`; the `ParseIntError` is surfaced as an `io::Error` message. -/
def ReadConfig.read_oid (cfg : ReadConfig) (s : List Nat) :
    Except String (Nat × List Nat) :=
  match cfg.read_string s with
  | .error e => .error e
  | .ok (v, s1) =>
      match u64FromStrRadix10 v with
      | some oid => .ok (oid, s1)
      | Option.none => .error ("invalid digit found in string")

/-- The magnitude accumulation loop of `ReadConfig::read_offset` in
`src/io.rs`: `offset |= (buffer[i + 1] as u64) << (i * 8)`, with `u64`
truncation and masked shift (release semantics). -/
def accumOffset : List Nat → Nat → Nat → Nat
  | [], _, acc => acc
  | b :: bs, i, acc =>
      accumOffset bs (i + 1) (acc ||| b * 2 ^ (8 * i % 64) % 2 ^ 64)

/-- `ReadConfig::read_offset` from `src/io.rs`: one tag byte plus
`offset_size` magnitude bytes are always consumed together; the tag selects
the variant. -/
def ReadConfig.read_offset (cfg : ReadConfig) (s : List Nat) :
    Except String (Offset × List Nat) :=
  if cfg.offset_size = 0 then .error ("offset size unknown")
  else
    match readExact (cfg.offset_size + 1) s with
    | .error e => .error e
    | .ok (buffer, rest) =>
        match buffer.headD 0 with
        | 0 => .ok (Offset.Unknown, rest)
        | 1 => .ok (Offset.PosNotSet, rest)
        | 2 => .ok (Offset.PosSet (accumOffset buffer.tail 0 0), rest)
        | 3 => .ok (Offset.NoData, rest)
        | _ => .error ("invalid offset type")

/-- A seekable file, modelled as its contents plus the cursor position
(`std::fs::File` as used by `read_data` / `DataReader`). -/
structure FileState where
  data : List Nat
  pos : Nat
deriving DecidableEq

/-- Reading one byte from the file at the cursor (`ReadConfig::read_byte`
applied to a `File`). -/
def FileState.read_byte (f : FileState) : Except String (Nat × FileState) :=
  match f.data.drop f.pos with
  | [] => .error ("failed to fill whole buffer")
  | b :: _ => .ok (b, { f with pos := f.pos + 1 })

/-- The free `read_int` applied to the file at the cursor; on success
exactly `int_size + 1` bytes are consumed, so the cursor advances by that
amount. -/
def FileState.read_int (f : FileState) (int_size : Nat) :
    Except String (Int × FileState) :=
  match PgArchive.read_int (f.data.drop f.pos) int_size with
  | .error e => .error e
  | .ok (v, _) => .ok (v, { f with pos := f.pos + (int_size + 1) })

/-- `DataReader` from `src/io.rs`: the chunked data-block reader. `limit` is
the remaining budget of the inner `Take` wrapper; `eof` is the end-of-block
flag. -/
structure DataReader where
  int_size : Nat
  file : FileState
  limit : Nat
  eof : Bool
deriving DecidableEq

/-- `DataReader::new` — limit 0 forces a chunk-length read on first use. -/
def DataReader.new (fd : FileState) (int_size : Nat) : DataReader :=
  ⟨int_size, fd, 0, false⟩

/-- `DataReader::empty` — an immediately exhausted reader. -/
def DataReader.empty (fd : FileState) : DataReader :=
  ⟨0, fd, 0, true⟩

/-- `self.inner.read(buf)` for a `Take`-wrapped file: returns
`min (buf.len) (limit) (bytes available)` bytes and advances cursor and
limit accordingly.  A real `File::read` may return fewer bytes; the model
deterministically returns the maximum, which is what `Take` over an
in-memory source does. -/
def DataReader.readInner (r : DataReader) (n : Nat) : List Nat × DataReader :=
  let avail := r.file.data.length - r.file.pos
  let m := min n (min r.limit avail)
  ((r.file.data.drop r.file.pos).take m,
   { r with file := { r.file with pos := r.file.pos + m }, limit := r.limit - m })

/-- `impl Read for DataReader` from `src/io.rs`.  When the limit is zero the
reader first decodes the next chunk-length varint (through a `Take` of
`int_size + 1`, which the read consumes back to zero), treats length 0 as
end-of-block, otherwise sets the limit to the length (`l as u64`) and reads
from the chunk. -/
def DataReader.read (r : DataReader) (n : Nat) :
    Except String (List Nat × DataReader) :=
  if r.eof then .ok ([], r)
  else if r.limit = 0 then
    match r.file.read_int r.int_size with
    | .error e => .error e
    | .ok (l, f1) =>
        if l = 0 then .ok ([], { r with file := f1, eof := true })
        else .ok (DataReader.readInner { r with file := f1, limit := toU64 l } n)
  else .ok (r.readInner n)

/-- `ReadConfig::read_data` from `src/io.rs`: dispatch on the offset tag,
seek for `PosSet`, validate the block-type byte, discard the varint id. -/
def ReadConfig.read_data (cfg : ReadConfig) (f : FileState) (o : Offset) :
    Except ArchiveError DataReader :=
  match o with
  | Offset.NoData => .ok (DataReader.empty f)
  | Offset.PosNotSet => .error ArchiveError.NoDataPresent
  | Offset.Unknown => .error ArchiveError.NoDataPresent
  | Offset.PosSet offset =>
      let f1 : FileState := { f with pos := offset }
      match f1.read_byte with
      | .error e => .error (ArchiveError.IOError e)
      | .ok (b, f2) =>
          match blockTypeFromByte b with
          | Option.none => .error (ArchiveError.InvalidData ("invalid block type"))
          | some block_type =>
              match f2.read_int cfg.int_size with
              | .error e => .error (ArchiveError.IOError e)
              | .ok (_, f3) =>
                  match block_type with
                  | BlockType.Blob => .error ArchiveError.BlobNotSupported
                  | BlockType.Data => .ok (DataReader.new f3 cfg.int_size)

/-- Driver that pulls from a `DataReader` until a read returns no bytes, as
`read_to_end` does; `fuel` bounds the number of pulls. -/
def readAll : Nat → DataReader → Nat → Except String (List Nat)
  | 0, _, _ => .error ("out of fuel")
  | fuel + 1, r, n =>
      match r.read n with
      | .error e => .error e
      | .ok (bs, r1) =>
          if bs = [] then .ok []
          else
            match readAll fuel r1 n with
            | .error e => .error e
            | .ok rest => .ok (bs ++ rest)

/-- The dependency loop of `TocEntry::parse` in `src/toc.rs`: length-prefixed
decimal strings until an empty string; each id parsed with
`i64::from_str_radix(s, 10)` (so negative ids are accepted), parse failure
is a hard error. -/
def readDeps (cfg : ReadConfig) (s : List Nat) :
    Except ArchiveError (List Int × List Nat) :=
  match h : cfg.read_string s with
  | .error e => .error (ArchiveError.IOError e)
  | .ok (dep_id, s1) =>
      if dep_id = [] then .ok ([], s1)
      else
        match i64FromStrRadix10 dep_id with
        | Option.none => .error (ArchiveError.InvalidData ("invalid dependency id"))
        | some v =>
            match readDeps cfg s1 with
            | .error e => .error e
            | .ok (deps, s2) => .ok (v :: deps, s2)
termination_by s.length
decreasing_by
  have key : ∀ (a b : List Nat), cfg.read_string s = .ok (a, b) →
      b.length < s.length := by
    intro a b hab
    simp only [ReadConfig.read_string] at hab
    split at hab
    · exact Except.noConfusion hab
    · rename_i len sm heq
      have h1 : sm.length < s.length := by
        simp only [ReadConfig.read_int, PgArchive.read_int] at heq
        split at heq
        · exact Except.noConfusion heq
        · split at heq
          · exact Except.noConfusion heq
          · rename_i buf rest hre
            simp only [Except.ok.injEq, Prod.mk.injEq] at heq
            obtain ⟨hlen, hsm⟩ := heq
            simp only [readExact] at hre
            split at hre
            · rename_i hle
              simp only [Except.ok.injEq, Prod.mk.injEq] at hre
              obtain ⟨hbuf, hrest⟩ := hre
              rw [← hsm, ← hrest]
              simp only [List.length_drop]
              omega
            · exact Except.noConfusion hre
      split at hab
      · simp only [Except.ok.injEq, Prod.mk.injEq] at hab
        obtain ⟨ha, hb⟩ := hab
        rw [← hb]
        exact h1
      · split at hab
        · exact Except.noConfusion hab
        · split at hab
          · exact Except.noConfusion hab
          · rename_i buf s2 hre2
            have h2 : s2.length ≤ sm.length := by
              simp only [readExact] at hre2
              split at hre2
              · simp only [Except.ok.injEq, Prod.mk.injEq] at hre2
                obtain ⟨hbuf, hs2⟩ := hre2
                rw [← hs2]
                simp only [List.length_drop]
                omega
              · exact Except.noConfusion hre2
            split at hab
            · simp only [Except.ok.injEq, Prod.mk.injEq] at hab
              obtain ⟨ha, hb⟩ := hab
              rw [← hb]
              omega
            · exact Except.noConfusion hab
  exact key dep_id s1 h

/-- `TocEntry` from `src/toc.rs`.  The Rust fields `section` and `namespace`
are Lean keywords and are called `sec` and `nspace` here. -/
structure TocEntry where
  id : Int
  had_dumper : Bool
  table_oid : Nat
  oid : Nat
  tag : List Nat
  desc : List Nat
  sec : Section
  defn : List Nat
  drop_stmt : List Nat
  copy_stmt : List Nat
  nspace : List Nat
  tablespace : List Nat
  table_access_method : List Nat
  owner : List Nat
  dependencies : List Int
  offset : Offset
deriving DecidableEq

/-- `TocEntry::parse` from `src/toc.rs`: the fixed field order, the
non-negative id check, the reserved must-be-false string boolean, the
dependency loop and the trailing offset. -/
def TocEntry.parse (cfg : ReadConfig) (s : List Nat) :
    Except ArchiveError (TocEntry × List Nat) :=
  pbind (cfg.read_int s) fun (id, s) =>
  if id < 0 then .error (ArchiveError.InvalidData ("negative TOC id")) else
  pbind (cfg.read_int_bool s) fun (had_dumper, s) =>
  pbind (cfg.read_oid s) fun (table_oid, s) =>
  pbind (cfg.read_oid s) fun (oid, s) =>
  pbind (cfg.read_string s) fun (tag, s) =>
  pbind (cfg.read_string s) fun (desc, s) =>
  pbind (cfg.read_int s) fun (sectionCode, s) =>
  abind (sectionOrInvalid sectionCode) fun sec =>
  pbind (cfg.read_string s) fun (defn, s) =>
  pbind (cfg.read_string s) fun (drop_stmt, s) =>
  pbind (cfg.read_string s) fun (copy_stmt, s) =>
  pbind (cfg.read_string s) fun (nspace, s) =>
  pbind (cfg.read_string s) fun (tablespace, s) =>
  pbind (cfg.read_string s) fun (table_access_method, s) =>
  pbind (cfg.read_string s) fun (owner, s) =>
  pbind (cfg.read_string_bool s) fun (mustBeFalse, s) =>
  if mustBeFalse then
    .error (ArchiveError.InvalidData ("mysterious value must be false")) else
  abind (readDeps cfg s) fun (dependencies, s) =>
  pbind (cfg.read_offset s) fun (offset, s) =>
  .ok (⟨id, had_dumper, table_oid, oid, tag, desc, sec, defn, drop_stmt,
    copy_stmt, nspace, tablespace, table_access_method, owner, dependencies,
    offset⟩, s)

/-- The entry loop of `read_toc` in `src/toc.rs` (`for _ in 0..num_entries`). -/
def readTocEntriesAux (cfg : ReadConfig) : Nat → List Nat →
    Except ArchiveError (List TocEntry × List Nat)
  | 0, s => .ok ([], s)
  | n + 1, s =>
      match TocEntry.parse cfg s with
      | .error e => .error e
      | .ok (e, s1) =>
          match readTocEntriesAux cfg n s1 with
          | .error err => .error err
          | .ok (es, s2) => .ok (e :: es, s2)

/-- `read_toc` from `src/toc.rs`: a varint count then that many entries.
Rust iterates `0..num_entries` on an `i64`, which is empty for a negative
count — `Int.toNat` encodes exactly that. -/
def read_toc (cfg : ReadConfig) (s : List Nat) :
    Except ArchiveError (List TocEntry × List Nat) :=
  pbind (cfg.read_int s) fun (num_entries, s) =>
  readTocEntriesAux cfg num_entries.toNat s

/-- Proleptic Gregorian leap year, as used by chrono's `NaiveDate`. -/
def isLeapYear (y : Int) : Bool :=
  decide (y % 4 = 0) && (decide (y % 100 ≠ 0) || decide (y % 400 = 0))

/-- Days in a month of the proleptic Gregorian calendar. -/
def daysInMonth (y : Int) (m : Nat) : Nat :=
  if m = 2 then (if isLeapYear y then 29 else 28)
  else if m = 4 ∨ m = 6 ∨ m = 9 ∨ m = 11 then 30
  else 31

/-- `chrono::NaiveDateTime` restricted to the fields the decoders populate. -/
structure DateTime where
  year : Int
  month : Nat
  day : Nat
  hour : Nat
  minute : Nat
  second : Nat
deriving DecidableEq

/-- Validity of `(year, month, day)` for `NaiveDate::from_ymd_opt`:
month 1–12, day within the month, year inside chrono's representable range
(`i32::MIN >> 13` to `i32::MAX >> 13`). -/
def validYmd (y : Int) (m d : Nat) : Prop :=
  1 ≤ m ∧ m ≤ 12 ∧ 1 ≤ d ∧ d ≤ daysInMonth y m ∧ -262144 ≤ y ∧ y ≤ 262143

instance (y : Int) (m d : Nat) : Decidable (validYmd y m d) := by
  unfold validYmd
  infer_instance

/-- The creation-date assembly of `Archive::parse` (`src/archive.rs` lines
164–173): year is `created_year + 1900` cast to `i32`, month is
`created_mon + 1` cast to `u32` (0-indexed month), day/hour/minute/second
are cast to `u32`; `from_ymd_opt` and `and_hms_opt` failures map to the two
`InvalidData` errors. -/
def assemble_create_date (created_sec created_min created_hour created_mday
    created_mon created_year : Int) : Except ArchiveError DateTime :=
  let y : Int := toI32 (created_year + 1900)
  let m : Nat := toU32 (created_mon + 1)
  let d : Nat := toU32 created_mday
  if validYmd y m d then
    let h := toU32 created_hour
    let mi := toU32 created_min
    let se := toU32 created_sec
    if h < 24 ∧ mi < 60 ∧ se < 60 then .ok ⟨y, m, d, h, mi, se⟩
    else .error (ArchiveError.InvalidData ("invalid time in creation date"))
  else .error (ArchiveError.InvalidData ("invalid creation date"))

/-- The legacy (pre-1.15) compression match of `Archive::parse`
(`src/archive.rs` lines 145–153): `-1 ⇒ ZSTD`, `0 ⇒ None`,
`1..=9 ⇒ Gzip(level)`, anything else is invalid. -/
def legacyCompression (compression : Int) : Except ArchiveError CompressionMethod :=
  if compression = -1 then .ok CompressionMethod.ZSTD
  else if compression = 0 then .ok CompressionMethod.None
  else if 1 ≤ compression ∧ compression ≤ 9 then
    .ok (CompressionMethod.Gzip compression)
  else .error (ArchiveError.InvalidData ("invalid compression method"))

/-- The five magic bytes `"PGDMP"`. -/
def pgdmpMagic : List Nat := [0x50, 0x47, 0x44, 0x4D, 0x50]

/-- `Archive` from `src/archive.rs` (string fields kept as UTF-8 bytes). -/
structure Archive where
  version : Version
  compression_method : CompressionMethod
  create_date : DateTime
  database_name : List Nat
  server_version : List Nat
  pgdump_version : List Nat
  toc_entries : List TocEntry
  io_config : ReadConfig
deriving DecidableEq

/-- The part of `Archive::parse` that runs after the version window check:
widths, format flag, compression, timestamp, the three strings and the TOC. -/
def Archive.parseAfterVersion (version : Version) (s : List Nat) :
    Except ArchiveError Archive :=
  pbind (ReadConfig.new.read_byte s) fun (int_size, s) =>
  pbind (ReadConfig.new.read_byte s) fun (offset_size, s) =>
  let io_config : ReadConfig := ⟨int_size, offset_size⟩
  pbind (io_config.read_byte s) fun (fmt, s) =>
  if fmt ≠ 1 then
    .error (ArchiveError.InvalidData ("file format must be 1 (custom)")) else
  abind
    (if versionLt version K_VERS_1_15 then
      pbind (io_config.read_int s) fun (compression, s) =>
      abind (legacyCompression compression) fun c => .ok (c, s)
    else
      pbind (io_config.read_byte s) fun (b, s) =>
      abind (compressionByteOrInvalid b) fun c => .ok (c, s))
    fun (compression_method, s) =>
  pbind (io_config.read_int s) fun (created_sec, s) =>
  pbind (io_config.read_int s) fun (created_min, s) =>
  pbind (io_config.read_int s) fun (created_hour, s) =>
  pbind (io_config.read_int s) fun (created_mday, s) =>
  pbind (io_config.read_int s) fun (created_mon, s) =>
  pbind (io_config.read_int s) fun (created_year, s) =>
  pbind (io_config.read_int s) fun (_created_isdst, s) =>
  abind (assemble_create_date created_sec created_min created_hour
    created_mday created_mon created_year) fun create_date =>
  pbind (io_config.read_string s) fun (database_name, s) =>
  pbind (io_config.read_string s) fun (server_version, s) =>
  pbind (io_config.read_string s) fun (pgdump_version, s) =>
  abind (read_toc io_config s) fun (toc_entries, _) =>
  .ok ⟨version, compression_method, create_date, database_name,
    server_version, pgdump_version, toc_entries, io_config⟩

/-- `Archive::parse` from `src/archive.rs`: magic signature, three version
bytes, the inclusive `K_VERS_1_10 ..= K_VERS_1_16` window check, then the
rest of the header and the TOC. -/
def Archive.parse (s : List Nat) : Except ArchiveError Archive :=
  pbind (readExact 5 s) fun (buffer, s) =>
  if buffer ≠ pgdmpMagic then
    .error (ArchiveError.InvalidData ("file does not start with PGDMP")) else
  pbind (ReadConfig.new.read_byte s) fun (v0, s) =>
  pbind (ReadConfig.new.read_byte s) fun (v1, s) =>
  pbind (ReadConfig.new.read_byte s) fun (v2, s) =>
  let version : Version := (v0, v1, v2)
  if versionLt version K_VERS_1_10 || versionLt K_VERS_1_16 version then
    .error (ArchiveError.UnsupportedVersionError version)
  else Archive.parseAfterVersion version s

/-- The error enum of the older revision, from `src/header.rs`. -/
inductive HeaderError where
  | IOError (msg : String)
  | InvalidData
  | UnsupportedVersionError (v : Version)
deriving DecidableEq

/-- The `?` operator applied to an `io::Result` inside `Header::parse`
(errors convert through the older revision's `From<io::Error>`). -/
def hbind {α β : Type} (x : Except String α)
    (f : α → Except HeaderError β) : Except HeaderError β :=
  match x with
  | .error e => .error (HeaderError.IOError e)
  | .ok a => f a

/-- `CompressionMethod` of the older revision (`src/header.rs`): no level
payload. -/
inductive HCompressionMethod where
  | None
  | Gzip
  | LZ4
  | ZSTD
deriving DecidableEq

/-- `Header` from `src/header.rs`. -/
structure Header where
  version : Version
  compression_method : HCompressionMethod
  compression_level : Int
  create_date : DateTime
  database_name : List Nat
  server_version : List Nat
  pgdump_version : List Nat
deriving DecidableEq

/-- The legacy compression inference of `Header::parse` (`src/header.rs`
lines 106–109): any nonzero level means `Gzip`, zero keeps `None`. -/
def headerLegacyCompression (compression_level : Int) : HCompressionMethod :=
  if compression_level ≠ 0 then HCompressionMethod.Gzip
  else HCompressionMethod.None

/-- The creation-date assembly of `Header::parse` (`src/header.rs` lines
120–127): identical to the newer revision except that the month field is
used directly (1-indexed) and both failures are the bare `InvalidData`. -/
def header_assemble_create_date (created_sec created_min created_hour
    created_mday created_mon created_year : Int) : Except HeaderError DateTime :=
  let y : Int := toI32 (created_year + 1900)
  let m : Nat := toU32 created_mon
  let d : Nat := toU32 created_mday
  if validYmd y m d then
    let h := toU32 created_hour
    let mi := toU32 created_min
    let se := toU32 created_sec
    if h < 24 ∧ mi < 60 ∧ se < 60 then .ok ⟨y, m, d, h, mi, se⟩
    else .error HeaderError.InvalidData
  else .error HeaderError.InvalidData

/-- `Header::parse` from `src/header.rs`.  Note the differences from
`Archive::parse`: the width bytes are read before the version check, the
window is `MIN_SUPPORTED_VERSION ..= MAX_SUPPORTED_VERSION` (1.15), a wrong
format flag is an `IOError`, the legacy compression never fails, the month
is 1-indexed, and there is no TOC. -/
def Header.parse (s : List Nat) : Except HeaderError Header :=
  hbind (readExact 5 s) fun (buffer, s) =>
  if buffer ≠ pgdmpMagic then .error HeaderError.InvalidData else
  hbind (ReadConfig.new.read_byte s) fun (v0, s) =>
  hbind (ReadConfig.new.read_byte s) fun (v1, s) =>
  hbind (ReadConfig.new.read_byte s) fun (v2, s) =>
  hbind (ReadConfig.new.read_byte s) fun (int_size, s) =>
  hbind (ReadConfig.new.read_byte s) fun (offset_size, s) =>
  let version : Version := (v0, v1, v2)
  let cfg : ReadConfig := ⟨int_size, offset_size⟩
  if versionLt version MIN_SUPPORTED_VERSION ||
      versionLt MAX_SUPPORTED_VERSION version then
    .error (HeaderError.UnsupportedVersionError version)
  else
  hbind (cfg.read_byte s) fun (fmt, s) =>
  if fmt ≠ 1 then .error (HeaderError.IOError ("wrong file format")) else
  (match (if versionLt version (1, 15, 0) then
      hbind (cfg.read_int s) fun (level, s) =>
      .ok (headerLegacyCompression level, level, s)
    else
      hbind (cfg.read_byte s) fun (b, s) =>
      match b with
      | 0 => .ok (HCompressionMethod.None, 0, s)
      | 1 => .ok (HCompressionMethod.Gzip, 0, s)
      | 2 => .ok (HCompressionMethod.LZ4, 0, s)
      | 3 => .ok (HCompressionMethod.ZSTD, 0, s)
      | _ => .error HeaderError.InvalidData) with
  | .error e => .error e
  | .ok (compression_method, compression_level, s) =>
  hbind (cfg.read_int s) fun (created_sec, s) =>
  hbind (cfg.read_int s) fun (created_min, s) =>
  hbind (cfg.read_int s) fun (created_hour, s) =>
  hbind (cfg.read_int s) fun (created_mday, s) =>
  hbind (cfg.read_int s) fun (created_mon, s) =>
  hbind (cfg.read_int s) fun (created_year, s) =>
  hbind (cfg.read_int s) fun (_created_isdst, s) =>
  match header_assemble_create_date created_sec created_min
    created_hour created_mday created_mon created_year with
  | .error e => .error e
  | .ok create_date =>
  hbind (cfg.read_string s) fun (database_name, s) =>
  hbind (cfg.read_string s) fun (server_version, s) =>
  hbind (cfg.read_string s) fun (pgdump_version, _) =>
  .ok ⟨version, compression_method, compression_level, create_date,
    database_name, server_version, pgdump_version⟩)

/-- Little-endian byte encoding of a magnitude in a fixed width. -/
def toLEBytes : Nat → Nat → List Nat
  | 0, _ => []
  | k + 1, m => m % 256 :: toLEBytes k (m / 256)

/-- Little-endian value of a byte list. -/
def leValue : List Nat → Nat
  | [] => 0
  | b :: bs => b + 256 * leValue bs

/-- On-disk encoding of one data-block chunk: varint length (sign byte 0)
followed by the payload. -/
def encodeChunk (k : Nat) (c : List Nat) : List Nat :=
  0 :: toLEBytes k c.length ++ c

/-- On-disk encoding of a whole chunk sequence, closed by the zero-length
terminator chunk. -/
def encodeChunkSeq (k : Nat) : List (List Nat) → List Nat
  | [] => 0 :: toLEBytes k 0
  | c :: cs => encodeChunk k c ++ encodeChunkSeq k cs

/-- A decode result that is not an `UnsupportedVersionError`: the only
source of that error is the version window check. -/
def noUV {α : Type} (r : Except ArchiveError α) : Prop :=
  ∀ v : Version, r ≠ .error (ArchiveError.UnsupportedVersionError v)

/-! ### Arithmetic and encoding lemmas -/

theorem wrap64_eq (x : Int) (h1 : -2 ^ 63 ≤ x) (h2 : x < 2 ^ 63) :
    wrap64 x = x := by
  unfold wrap64
  have e1 : (2 : Int) ^ 63 = 9223372036854775808 := by norm_num
  have e2 : (2 : Int) ^ 64 = 18446744073709551616 := by norm_num
  rw [e1, e2] at *
  omega

theorem toU64_coe (m : Nat) (h : m < 2 ^ 64) : toU64 (m : Int) = m := by
  unfold toU64
  have e2 : (2 : Int) ^ 64 = 18446744073709551616 := by norm_num
  rw [e2]
  rw [Int.emod_eq_of_lt (by positivity) (by exact_mod_cast (by norm_num at h ⊢; exact h))]
  exact Int.toNat_ofNat m

theorem toLEBytes_length (k m : Nat) : (toLEBytes k m).length = k := by
  induction k generalizing m with
  | zero => rfl
  | succ k ih => simp [toLEBytes, ih]

theorem leValue_toLEBytes (k m : Nat) (h : m < 256 ^ k) :
    leValue (toLEBytes k m) = m := by
  induction k generalizing m with
  | zero =>
    have hm0 : m = 0 := by
      have h1 : m < 1 := by simpa using h
      omega
    subst hm0
    rfl
  | succ k ih =>
    have hdiv : m / 256 < 256 ^ k := by
      rw [Nat.div_lt_iff_lt_mul (by norm_num)]
      calc m < 256 ^ (k + 1) := h
        _ = 256 ^ k * 256 := by ring
    simp only [toLEBytes, leValue, ih (m / 256) hdiv]
    omega

theorem lor_mul_two_pow_eq_add :
    ∀ (n a b : Nat), a < 2 ^ n → a ||| 2 ^ n * b = a + 2 ^ n * b := by
  intro n
  induction n with
  | zero =>
    intro a b ha
    have : a = 0 := by omega
    subst this
    simp
  | succ n ih =>
    intro a b ha
    have hdec : Nat.bit a.bodd a.div2 = a := Nat.bit_decomp a
    have h2 : 2 ^ (n + 1) * b = Nat.bit false (2 ^ n * b) := by
      simp [Nat.bit_val]
      ring
    have hd2 : a.div2 < 2 ^ n := by
      have hv := Nat.bit_val a.bodd a.div2
      rw [hv] at hdec
      have : (2 : Nat) ^ (n + 1) = 2 * 2 ^ n := by ring
      omega
    calc a ||| 2 ^ (n + 1) * b
        = (Nat.bit a.bodd a.div2) ||| (Nat.bit false (2 ^ n * b)) := by
          rw [hdec, h2]
      _ = Nat.bit (a.bodd || false) (a.div2 ||| 2 ^ n * b) :=
          Nat.bitwise_bit (by rfl) _ _ _ _
      _ = Nat.bit a.bodd (a.div2 + 2 ^ n * b) := by rw [ih a.div2 b hd2]; simp
      _ = a + 2 ^ (n + 1) * b := by
          rw [Nat.bit_val] at hdec ⊢
          have : (2 : Nat) ^ (n + 1) * b = 2 * (2 ^ n * b) := by ring
          omega

theorem accumInt_eq (bs : List Nat) :
    ∀ (i : Nat) (acc : Int), 0 ≤ acc →
      acc + (leValue bs : Int) * 2 ^ (8 * i) < 2 ^ 63 →
      accumInt bs i acc = acc + (leValue bs : Int) * 2 ^ (8 * i) := by
  induction bs with
  | nil =>
    intro i acc h0 hlt
    simp [accumInt, leValue]
  | cons b bs ih =>
    intro i acc h0 hlt
    have hLnn : (0 : Int) ≤ (leValue bs : Int) := by positivity
    have hval : (leValue (b :: bs) : Int) = (b : Int) + 256 * (leValue bs : Int) := by
      simp only [leValue]
      push_cast
      ring
    have hpow : ((2 : Int) ^ (8 * (i + 1))) = 2 ^ (8 * i) * 256 := by
      have : 8 * (i + 1) = 8 * i + 8 := by ring
      rw [this, pow_add]
      norm_num
    have hpos : (0 : Int) < 2 ^ (8 * i) := by positivity
    have hbterm : (b : Int) * 2 ^ (8 * i) + acc ≤
        acc + (leValue (b :: bs) : Int) * 2 ^ (8 * i) := by
      rw [hval]
      nlinarith
    by_cases hi : i ≤ 7
    · have hmask : 8 * i % 64 = 8 * i := Nat.mod_eq_of_lt (by omega)
      have hb63 : (b : Int) * 2 ^ (8 * i) < 2 ^ 63 := by
        have hbnn : (0 : Int) ≤ (b : Int) := by positivity
        nlinarith
      have hbnn2 : (0 : Int) ≤ (b : Int) * 2 ^ (8 * i) := by positivity
      have hw1 : wrap64 ((b : Int) * 2 ^ (8 * i % 64)) = (b : Int) * 2 ^ (8 * i) := by
        rw [hmask]
        exact wrap64_eq _ (by linarith [hbnn2]) hb63
      have hsum63 : acc + (b : Int) * 2 ^ (8 * i) < 2 ^ 63 := by nlinarith
      have hw2 : wrap64 (acc + (b : Int) * 2 ^ (8 * i)) = acc + (b : Int) * 2 ^ (8 * i) :=
        wrap64_eq _ (by linarith [h0, hbnn2]) hsum63
      have hnext : acc + (b : Int) * 2 ^ (8 * i) +
          (leValue bs : Int) * 2 ^ (8 * (i + 1)) =
          acc + (leValue (b :: bs) : Int) * 2 ^ (8 * i) := by
        rw [hval, hpow]
        ring
      simp only [accumInt, hw1, hw2]
      rw [ih (i + 1) (acc + (b : Int) * 2 ^ (8 * i)) (add_nonneg h0 hbnn2)
        (by rw [hnext]; exact hlt)]
      rw [hnext]
    · have hi8 : 8 ≤ i := by omega
      have hbig : (2 : Int) ^ 63 ≤ 2 ^ (8 * i) := by
        apply pow_le_pow_right (by norm_num)
        omega
      have hb0 : b = 0 := by
        by_contra hb
        have hb1 : (1 : Int) ≤ (b : Int) := by
          exact_mod_cast Nat.one_le_iff_ne_zero.mpr hb
        nlinarith
      subst hb0
      have hw1 : wrap64 ((0 : Int) * 2 ^ (8 * i % 64)) = 0 := by
        rw [zero_mul]
        exact wrap64_eq 0 (by norm_num) (by norm_num)
      have hprodnn : (0 : Int) ≤ (leValue ((0 : Nat) :: bs) : Int) * 2 ^ (8 * i) := by
        positivity
      have hacc63 : acc < 2 ^ 63 := by linarith [hprodnn, hlt]
      have hw2 : wrap64 (acc + 0) = acc := by
        rw [add_zero]
        exact wrap64_eq acc (by linarith [h0]) hacc63
      have hval0 : (leValue ((0 : Nat) :: bs) : Int) = 256 * (leValue bs : Int) := by
        simp only [leValue]
        push_cast
        ring
      have hnext : acc + (leValue bs : Int) * 2 ^ (8 * (i + 1)) =
          acc + (leValue ((0 : Nat) :: bs) : Int) * 2 ^ (8 * i) := by
        rw [hval0, hpow]
        ring
      simp only [accumInt, Nat.cast_zero, hw1, hw2]
      rw [ih (i + 1) acc h0 (by rw [hnext]; exact hlt)]
      rw [hnext]

/-- Decoding the sign/magnitude encoding: a sign byte followed by the
`int_size`-byte little-endian encoding of a magnitude below `2 ^ 63`
round-trips through `read_int`. -/
theorem read_int_encode (k m sign : Nat) (rest : List Nat) (hk : 0 < k)
    (hm : m < 256 ^ k) (hm63 : m < 2 ^ 63) :
    read_int (sign :: (toLEBytes k m ++ rest)) k =
      .ok (if sign = 0 then (m : Int) else -(m : Int), rest) := by
  have hlen : (toLEBytes k m).length = k := toLEBytes_length k m
  have htotal : k + 1 ≤ (sign :: (toLEBytes k m ++ rest)).length := by
    simp [List.length_append, hlen]
  have htake : (sign :: (toLEBytes k m ++ rest)).take (k + 1) =
      sign :: toLEBytes k m := by
    simp only [List.take_succ_cons]
    rw [List.take_left' hlen]
  have hdrop : (sign :: (toLEBytes k m ++ rest)).drop (k + 1) = rest := by
    simp only [List.drop_succ_cons]
    rw [List.drop_left' hlen]
  have haccum : accumInt (toLEBytes k m) 0 0 = (m : Int) := by
    rw [accumInt_eq (toLEBytes k m) 0 0 le_rfl
      (by
        rw [leValue_toLEBytes k m hm]
        simpa using hm63)]
    rw [leValue_toLEBytes k m hm]
    simp
  have hneg : wrap64 (-(m : Int)) = -(m : Int) := by
    apply wrap64_eq
    · have : (m : Int) < 2 ^ 63 := by exact_mod_cast hm63
      omega
    · have : (0 : Int) ≤ (m : Int) := by positivity
      omega
  simp only [read_int, readExact, if_pos htotal, if_neg (by omega : ¬k = 0),
    htake, hdrop, List.headD, List.tail, haccum, hneg]
  by_cases hs : sign = 0
  · simp [hs]
  · simp [hs]

theorem accumOffset_eq (bs : List Nat) :
    ∀ (i : Nat) (acc : Nat), (∀ b ∈ bs, b < 256) → i + bs.length ≤ 8 →
      acc < 2 ^ (8 * i) →
      accumOffset bs i acc = acc + leValue bs * 2 ^ (8 * i) := by
  induction bs with
  | nil =>
    intro i acc hb hlen hacc
    simp [accumOffset, leValue]
  | cons b bs ih =>
    intro i acc hb hlen hacc
    have hblt : b < 256 := hb b (List.mem_cons_self b bs)
    have hi : i ≤ 7 := by
      simp only [List.length_cons] at hlen
      omega
    have hmask : 8 * i % 64 = 8 * i := Nat.mod_eq_of_lt (by omega)
    have hsmall : b * 2 ^ (8 * i) < 2 ^ 64 := by
      calc b * 2 ^ (8 * i) < 256 * 2 ^ (8 * i) :=
            mul_lt_mul_of_pos_right hblt (by positivity)
        _ = 2 ^ (8 * i + 8) := by rw [pow_add]; ring
        _ ≤ 2 ^ 64 := Nat.pow_le_pow_right (by norm_num) (by omega)
    have hlor : acc ||| b * 2 ^ (8 * i) = acc + 2 ^ (8 * i) * b := by
      rw [Nat.mul_comm b (2 ^ (8 * i))]
      exact lor_mul_two_pow_eq_add (8 * i) acc b hacc
    have hacc2 : acc + 2 ^ (8 * i) * b < 2 ^ (8 * (i + 1)) := by
      have : (2 : Nat) ^ (8 * (i + 1)) = 2 ^ (8 * i) * 256 := by
        have h8 : 8 * (i + 1) = 8 * i + 8 := by ring
        rw [h8, pow_add]
        norm_num
      rw [this]
      nlinarith
    simp only [accumOffset, hmask, Nat.mod_eq_of_lt hsmall, hlor]
    rw [ih (i + 1) (acc + 2 ^ (8 * i) * b)
      (fun x hx => hb x (List.mem_cons_of_mem b hx))
      (by simp only [List.length_cons] at hlen; omega) hacc2]
    have h8 : (2 : Nat) ^ (8 * (i + 1)) = 2 ^ (8 * i) * 256 := by
      have : 8 * (i + 1) = 8 * i + 8 := by ring
      rw [this, pow_add]
      norm_num
    simp only [leValue, h8]
    ring

/-! ### Data-block reader lemmas -/

theorem fileStateReadIntEncode (k m : Nat) (sign : Nat) (rest : List Nat)
    (data : List Nat) (pos : Nat) (hk : 0 < k) (hm : m < 256 ^ k)
    (hm63 : m < 2 ^ 63)
    (hdata : data.drop pos = sign :: (toLEBytes k m ++ rest)) :
    FileState.read_int ⟨data, pos⟩ k =
      .ok (if sign = 0 then (m : Int) else -(m : Int), ⟨data, pos + (k + 1)⟩) := by
  simp only [FileState.read_int]
  rw [hdata, PgArchive.read_int_encode k m sign rest hk hm hm63]

theorem DataReader_read_chunk (k n : Nat) (c rest : List Nat)
    (data : List Nat) (pos : Nat)
    (hk : 0 < k) (hc : c ≠ []) (hlen : c.length < 256 ^ k)
    (h63 : c.length < 2 ^ 63) (hn : c.length ≤ n)
    (hdata : data.drop pos = encodeChunk k c ++ rest) :
    DataReader.read ⟨k, ⟨data, pos⟩, 0, false⟩ n =
      .ok (c, ⟨k, ⟨data, pos + (k + 1) + c.length⟩, 0, false⟩) := by
  have hdata' : data.drop pos = 0 :: (toLEBytes k c.length ++ (c ++ rest)) := by
    rw [hdata]
    simp [encodeChunk, List.append_assoc]
  have hread : FileState.read_int ⟨data, pos⟩ k =
      .ok ((c.length : Int), ⟨data, pos + (k + 1)⟩) := by
    rw [fileStateReadIntEncode k c.length 0 (c ++ rest) data pos hk hlen h63 hdata']
    simp
  have hcpos : 0 < c.length := List.length_pos.mpr hc
  have hne : ¬((c.length : Int) = 0) := by
    simp only [Int.natCast_eq_zero]
    omega
  have hu : toU64 ((c.length : Int)) = c.length :=
    toU64_coe _ (lt_trans h63 (by norm_num))
  have hdrop1 : data.drop (pos + (k + 1)) = c ++ rest := by
    have h1 := congrArg (List.drop (k + 1)) hdata'
    rw [List.drop_drop] at h1
    have h2 : (0 :: (toLEBytes k c.length ++ (c ++ rest))).drop (k + 1) = c ++ rest := by
      simp only [List.drop_succ_cons]
      exact List.drop_left' (toLEBytes_length k c.length)
    rw [h2] at h1
    exact h1
  have havail : data.length - (pos + (k + 1)) = c.length + rest.length := by
    have h1 := congrArg List.length hdrop1
    simpa [List.length_drop, List.length_append] using h1
  have hm2 : min n (min (c.length) (data.length - (pos + (k + 1)))) = c.length := by
    rw [havail]
    omega
  simp only [DataReader.read, Bool.false_eq_true, if_false, if_pos rfl]
  rw [hread]
  simp only [if_true, if_neg hne, DataReader.readInner, hu, hm2]
  rw [hdrop1, List.take_left' rfl]
  simp [Nat.sub_self]

theorem DataReader_read_terminator (k n : Nat) (rest : List Nat)
    (data : List Nat) (pos : Nat) (hk : 0 < k)
    (hdata : data.drop pos = (0 :: toLEBytes k 0) ++ rest) :
    DataReader.read ⟨k, ⟨data, pos⟩, 0, false⟩ n =
      .ok ([], ⟨k, ⟨data, pos + (k + 1)⟩, 0, true⟩) := by
  have hdata' : data.drop pos = 0 :: (toLEBytes k 0 ++ rest) := by
    simpa using hdata
  have hread : FileState.read_int ⟨data, pos⟩ k =
      .ok ((0 : Int), ⟨data, pos + (k + 1)⟩) := by
    have h1 := fileStateReadIntEncode k 0 0 rest data pos hk
      (by positivity) (by positivity) hdata'
    simpa using h1
  simp only [DataReader.read, Bool.false_eq_true, if_false, if_pos rfl]
  rw [hread]
  rfl

theorem DataReader_read_eof (r : DataReader) (n : Nat) (h : r.eof = true) :
    DataReader.read r n = .ok ([], r) := by
  simp [DataReader.read, h]

theorem readAll_encodeChunkSeq (k n : Nat) (hk : 0 < k) :
    ∀ (cs : List (List Nat)) (data : List Nat) (pos : Nat) (rest : List Nat),
      (∀ c ∈ cs, c ≠ [] ∧ c.length < 256 ^ k ∧ c.length < 2 ^ 63 ∧ c.length ≤ n) →
      data.drop pos = encodeChunkSeq k cs ++ rest →
      readAll (cs.length + 1) (DataReader.new ⟨data, pos⟩ k) n = .ok cs.flatten := by
  intro cs
  induction cs with
  | nil =>
    intro data pos rest hwf hdata
    simp only [List.length_nil, DataReader.new, readAll]
    rw [DataReader_read_terminator k n rest data pos hk
      (by simpa [encodeChunkSeq] using hdata)]
    simp
  | cons c cs ih =>
    intro data pos rest hwf hdata
    obtain ⟨hc, hclen, h63, hn⟩ := hwf c (List.mem_cons_self c cs)
    have hwf' : ∀ c' ∈ cs, c' ≠ [] ∧ c'.length < 256 ^ k ∧ c'.length < 2 ^ 63 ∧
        c'.length ≤ n := fun c' hc' => hwf c' (List.mem_cons_of_mem c hc')
    have hdata' : data.drop pos = encodeChunk k c ++ (encodeChunkSeq k cs ++ rest) := by
      rw [hdata]
      simp [encodeChunkSeq, List.append_assoc]
    have hstep := DataReader_read_chunk k n c (encodeChunkSeq k cs ++ rest)
      data pos hk hc hclen h63 hn hdata'
    have heclen : (encodeChunk k c).length = k + 1 + c.length := by
      simp [encodeChunk, toLEBytes_length]
      omega
    have hdrop2 : data.drop (pos + (k + 1) + c.length) =
        encodeChunkSeq k cs ++ rest := by
      have h1 := congrArg (List.drop (k + 1 + c.length)) hdata'
      rw [List.drop_drop] at h1
      rw [List.drop_left' heclen] at h1
      rw [← h1]
      congr 1
      omega
    have hrec := ih data (pos + (k + 1) + c.length) rest hwf' hdrop2
    simp only [DataReader.new] at hrec ⊢
    simp only [List.length_cons]
    rw [readAll, hstep]
    simp only [if_neg hc]
    rw [hrec]
    simp

/-! ### The only source of `UnsupportedVersionError` is the version check -/

theorem read_string_shrink (cfg : ReadConfig) (s a b : List Nat)
    (hab : cfg.read_string s = .ok (a, b)) : b.length < s.length := by
  simp only [ReadConfig.read_string] at hab
  split at hab
  · exact Except.noConfusion hab
  · rename_i len sm heq
    have h1 : sm.length < s.length := by
      simp only [ReadConfig.read_int, PgArchive.read_int] at heq
      split at heq
      · exact Except.noConfusion heq
      · split at heq
        · exact Except.noConfusion heq
        · rename_i buf rest hre
          simp only [Except.ok.injEq, Prod.mk.injEq] at heq
          obtain ⟨hlen, hsm⟩ := heq
          simp only [readExact] at hre
          split at hre
          · rename_i hle
            simp only [Except.ok.injEq, Prod.mk.injEq] at hre
            obtain ⟨hbuf, hrest⟩ := hre
            rw [← hsm, ← hrest]
            simp only [List.length_drop]
            omega
          · exact Except.noConfusion hre
    split at hab
    · simp only [Except.ok.injEq, Prod.mk.injEq] at hab
      obtain ⟨ha, hb⟩ := hab
      rw [← hb]
      exact h1
    · split at hab
      · exact Except.noConfusion hab
      · split at hab
        · exact Except.noConfusion hab
        · rename_i buf s2 hre2
          have h2 : s2.length ≤ sm.length := by
            simp only [readExact] at hre2
            split at hre2
            · simp only [Except.ok.injEq, Prod.mk.injEq] at hre2
              obtain ⟨hbuf, hs2⟩ := hre2
              rw [← hs2]
              simp only [List.length_drop]
              omega
            · exact Except.noConfusion hre2
          split at hab
          · simp only [Except.ok.injEq, Prod.mk.injEq] at hab
            obtain ⟨ha, hb⟩ := hab
            rw [← hb]
            omega
          · exact Except.noConfusion hab

theorem noUV_ok {α : Type} (a : α) : noUV (.ok a) := by
  intro v h
  exact Except.noConfusion h

theorem noUV_IOError {α : Type} (msg : String) :
    noUV (α := α) (.error (ArchiveError.IOError msg)) := by
  intro v h
  exact ArchiveError.noConfusion (Except.error.inj h)

theorem noUV_InvalidData {α : Type} (msg : String) :
    noUV (α := α) (.error (ArchiveError.InvalidData msg)) := by
  intro v h
  exact ArchiveError.noConfusion (Except.error.inj h)

theorem noUV_pbind {α β γ : Type} (x : Except String (α × β))
    (f : α × β → Except ArchiveError γ) (hf : ∀ a b, noUV (f (a, b))) :
    noUV (pbind x f) := by
  cases x with
  | error e =>
    intro v h
    simp only [pbind] at h
    exact ArchiveError.noConfusion (Except.error.inj h)
  | ok p =>
    obtain ⟨a, b⟩ := p
    intro v h
    simp only [pbind] at h
    exact hf a b v h

theorem noUV_abind {α β : Type} (x : Except ArchiveError α)
    (f : α → Except ArchiveError β) (hx : noUV x) (hf : ∀ a, noUV (f a)) :
    noUV (abind x f) := by
  cases x with
  | error e =>
    intro v h
    simp only [abind] at h
    exact hx v (by rw [Except.error.inj h])
  | ok a =>
    intro v h
    simp only [abind] at h
    exact hf a v h

theorem noUV_abind_pair {α β γ : Type} (x : Except ArchiveError (α × β))
    (f : α × β → Except ArchiveError γ) (hx : noUV x)
    (hf : ∀ a b, noUV (f (a, b))) : noUV (abind x f) := by
  apply noUV_abind x f hx
  intro a
  obtain ⟨a1, a2⟩ := a
  exact hf a1 a2

theorem noUV_ite {α : Type} (c : Prop) [Decidable c]
    {x y : Except ArchiveError α} (hx : noUV x) (hy : noUV y) :
    noUV (if c then x else y) := by
  by_cases hc : c
  · rw [if_pos hc]; exact hx
  · rw [if_neg hc]; exact hy

theorem noUV_readDeps (cfg : ReadConfig) :
    ∀ (n : Nat) (s : List Nat), s.length ≤ n → noUV (readDeps cfg s) := by
  intro n
  induction n with
  | zero =>
    intro s hs
    rw [readDeps]
    split
    · exact noUV_IOError _
    · rename_i d s1 heq
      have := read_string_shrink cfg s d s1 heq
      omega
  | succ n ih =>
    intro s hs
    rw [readDeps]
    split
    · exact noUV_IOError _
    · rename_i d s1 heq
      have hsh := read_string_shrink cfg s d s1 heq
      split
      · exact noUV_ok _
      · split
        · exact noUV_InvalidData _
        · rename_i v1 hv
          have hrec := ih s1 (by omega)
          intro v hEq
          cases hr : readDeps cfg s1 with
          | error e =>
            rw [hr] at hEq
            have he : e = ArchiveError.UnsupportedVersionError v :=
              Except.error.inj hEq
            rw [he] at hr
            exact hrec v hr
          | ok p =>
            rw [hr] at hEq
            exact Except.noConfusion hEq

theorem noUV_sectionOrInvalid (v : Int) : noUV (sectionOrInvalid v) := by
  unfold sectionOrInvalid
  cases sectionFromInt v with
  | none => exact noUV_InvalidData _
  | some sec => exact noUV_ok _

theorem noUV_compressionByteOrInvalid (b : Nat) :
    noUV (compressionByteOrInvalid b) := by
  unfold compressionByteOrInvalid
  cases compressionFromByte b with
  | none => exact noUV_InvalidData _
  | some c => exact noUV_ok _

theorem noUV_legacyCompression (c : Int) : noUV (legacyCompression c) := by
  unfold legacyCompression
  apply noUV_ite _ (noUV_ok _)
  apply noUV_ite _ (noUV_ok _)
  apply noUV_ite _ (noUV_ok _)
  exact noUV_InvalidData _

theorem noUV_assemble_create_date (a b c d e f : Int) :
    noUV (assemble_create_date a b c d e f) := by
  unfold assemble_create_date
  apply noUV_ite
  · apply noUV_ite
    · exact noUV_ok _
    · exact noUV_InvalidData _
  · exact noUV_InvalidData _

theorem noUV_TocEntry_parse (cfg : ReadConfig) (s : List Nat) :
    noUV (TocEntry.parse cfg s) := by
  unfold TocEntry.parse
  apply noUV_pbind
  intro id s1
  refine noUV_ite _ (noUV_InvalidData _) ?_
  apply noUV_pbind
  intro hd s2
  apply noUV_pbind
  intro toid s3
  apply noUV_pbind
  intro oid s4
  apply noUV_pbind
  intro tg s5
  apply noUV_pbind
  intro dsc s6
  apply noUV_pbind
  intro scode s7
  apply noUV_abind _ _ (noUV_sectionOrInvalid scode)
  intro sec
  apply noUV_pbind
  intro dfn s8
  apply noUV_pbind
  intro dstmt s9
  apply noUV_pbind
  intro cstmt s10
  apply noUV_pbind
  intro nsp s11
  apply noUV_pbind
  intro tbs s12
  apply noUV_pbind
  intro tam s13
  apply noUV_pbind
  intro ow s14
  apply noUV_pbind
  intro mbf s15
  refine noUV_ite _ (noUV_InvalidData _) ?_
  apply noUV_abind_pair _ _ (noUV_readDeps cfg s15.length s15 le_rfl)
  intro deps s16
  apply noUV_pbind
  intro off s17
  exact noUV_ok _

theorem noUV_readTocEntriesAux (cfg : ReadConfig) :
    ∀ (n : Nat) (s : List Nat), noUV (readTocEntriesAux cfg n s) := by
  intro n
  induction n with
  | zero => intro s; exact noUV_ok _
  | succ n ih =>
    intro s
    simp only [readTocEntriesAux]
    intro v hEq
    cases hp : TocEntry.parse cfg s with
    | error e =>
      rw [hp] at hEq
      have he : e = ArchiveError.UnsupportedVersionError v := Except.error.inj hEq
      rw [he] at hp
      exact noUV_TocEntry_parse cfg s v hp
    | ok p =>
      obtain ⟨entry, s1⟩ := p
      rw [hp] at hEq
      simp only [] at hEq
      cases hr : readTocEntriesAux cfg n s1 with
      | error e =>
        rw [hr] at hEq
        have he : e = ArchiveError.UnsupportedVersionError v := Except.error.inj hEq
        rw [he] at hr
        exact ih s1 v hr
      | ok q =>
        obtain ⟨es, s2⟩ := q
        rw [hr] at hEq
        exact Except.noConfusion hEq

theorem noUV_read_toc (cfg : ReadConfig) (s : List Nat) :
    noUV (read_toc cfg s) := by
  unfold read_toc
  apply noUV_pbind
  intro cnt s1
  exact noUV_readTocEntriesAux cfg cnt.toNat s1

theorem noUV_parseAfterVersion (version : Version) (s : List Nat) :
    noUV (Archive.parseAfterVersion version s) := by
  unfold Archive.parseAfterVersion
  apply noUV_pbind
  intro isz s1
  apply noUV_pbind
  intro osz s2
  simp only []
  apply noUV_pbind
  intro fmt s3
  refine noUV_ite _ (noUV_InvalidData _) ?_
  apply noUV_abind_pair
  · apply noUV_ite
    · apply noUV_pbind
      intro comp s4
      apply noUV_abind _ _ (noUV_legacyCompression comp)
      intro c
      exact noUV_ok _
    · apply noUV_pbind
      intro b s4
      apply noUV_abind _ _ (noUV_compressionByteOrInvalid b)
      intro c
      exact noUV_ok _
  · intro cm s4
    apply noUV_pbind
    intro csec s5
    apply noUV_pbind
    intro cmin s6
    apply noUV_pbind
    intro chour s7
    apply noUV_pbind
    intro cmday s8
    apply noUV_pbind
    intro cmon s9
    apply noUV_pbind
    intro cyear s10
    apply noUV_pbind
    intro cdst s11
    apply noUV_abind _ _ (noUV_assemble_create_date _ _ _ _ _ _)
    intro cd
    apply noUV_pbind
    intro dbn s12
    apply noUV_pbind
    intro sv s13
    apply noUV_pbind
    intro pv s14
    apply noUV_abind_pair _ _ (noUV_read_toc _ _)
    intro toc s15
    exact noUV_ok _

theorem parse_version_reduction (v0 v1 v2 : Nat) (rest : List Nat) :
    Archive.parse (pgdmpMagic ++ v0 :: v1 :: v2 :: rest) =
      if versionLt (v0, v1, v2) K_VERS_1_10 || versionLt K_VERS_1_16 (v0, v1, v2) then
        .error (ArchiveError.UnsupportedVersionError (v0, v1, v2))
      else Archive.parseAfterVersion (v0, v1, v2) rest := by
  have hlen : 5 ≤ (pgdmpMagic ++ v0 :: v1 :: v2 :: rest).length := by
    simp [pgdmpMagic]
  have htake : (pgdmpMagic ++ v0 :: v1 :: v2 :: rest).take 5 = pgdmpMagic := by
    rw [show (5 : Nat) = pgdmpMagic.length from rfl, List.take_left]
  have hdrop : (pgdmpMagic ++ v0 :: v1 :: v2 :: rest).drop 5 = v0 :: v1 :: v2 :: rest := by
    rw [show (5 : Nat) = pgdmpMagic.length from rfl, List.drop_left]
  simp only [Archive.parse, readExact, if_pos hlen, htake, hdrop, pbind,
    ReadConfig.read_byte, ite_not]
  rw [if_pos trivial]

/-! ### Claim theorems -/

/-- C4: for a stream whose decoded version triple lies outside the inclusive
supported window of `Archive::parse` (`1.10 ..= 1.16`), parsing fails with
`UnsupportedVersionError` carrying that triple — for every continuation of
the stream, so nothing after the check is decoded; for a version inside the
window, no later stage of the parse can produce `UnsupportedVersionError`,
so the version check itself never fails. -/
theorem version_window_check (v0 v1 v2 : Nat) (rest : List Nat) :
    ((versionLt (v0, v1, v2) K_VERS_1_10 ||
        versionLt K_VERS_1_16 (v0, v1, v2)) = true →
      Archive.parse (pgdmpMagic ++ v0 :: v1 :: v2 :: rest) =
        .error (ArchiveError.UnsupportedVersionError (v0, v1, v2))) ∧
    ((versionLt (v0, v1, v2) K_VERS_1_10 ||
        versionLt K_VERS_1_16 (v0, v1, v2)) = false →
      ∀ u, Archive.parse (pgdmpMagic ++ v0 :: v1 :: v2 :: rest) ≠
        .error (ArchiveError.UnsupportedVersionError u)) := by
  constructor
  · intro h
    rw [parse_version_reduction, if_pos h]
  · intro h u
    rw [parse_version_reduction, if_neg (by simp [h])]
    exact noUV_parseAfterVersion (v0, v1, v2) rest u

/-- C4 witness: version 1.9.0 is below the window and fails with exactly
`UnsupportedVersionError (1, 9, 0)`; version 1.14.0 is inside the window and
the (truncated) parse fails with some other error, never an
`UnsupportedVersionError`. -/
theorem version_window_check_witness :
    ((versionLt (1, 9, 0) K_VERS_1_10 || versionLt K_VERS_1_16 (1, 9, 0)) = true) ∧
    Archive.parse (pgdmpMagic ++ 1 :: 9 :: 0 :: []) =
      .error (ArchiveError.UnsupportedVersionError (1, 9, 0)) ∧
    ((versionLt (1, 14, 0) K_VERS_1_10 || versionLt K_VERS_1_16 (1, 14, 0)) = false) ∧
    Archive.parse (pgdmpMagic ++ 1 :: 14 :: 0 :: []) ≠
      .error (ArchiveError.UnsupportedVersionError (2, 0, 0)) :=
  ⟨by decide,
   (version_window_check 1 9 0 []).1 (by decide),
   by decide,
   (version_window_check 1 14 0 []).2 (by decide) (2, 0, 0)⟩

/-- C9 (amended): every width-dependent primitive of the codec — integer,
string, both booleans, oid and offset reads — fails with the matching
configuration-unset error when invoked on the fresh `ReadConfig::new`
(both widths zero), for every input stream; `read_byte` alone needs no
configuration. -/
theorem config_unset_primitives (s : List Nat) :
    ReadConfig.new.read_int s = .error ("integer size unknown") ∧
    ReadConfig.new.read_string s = .error ("integer size unknown") ∧
    ReadConfig.new.read_int_bool s = .error ("integer size unknown") ∧
    ReadConfig.new.read_string_bool s = .error ("integer size unknown") ∧
    ReadConfig.new.read_oid s = .error ("integer size unknown") ∧
    ReadConfig.new.read_offset s = .error ("offset size unknown") :=
  ⟨rfl, rfl, rfl, rfl, rfl, rfl⟩

/-- C9 counterexample: `read_byte` is a primitive decode operation of the
codec, yet with both widths still zero it succeeds (the crate's own
`read_byte` test does exactly this) — so "every primitive fails with the
configuration-unset error" is false as stated. -/
theorem read_byte_needs_no_config :
    ReadConfig.new.read_byte [0x42] = .ok (0x42, []) := rfl

/-- C6 (amended): for every `int_size > 0` and every magnitude representable
in `int_size` bytes that is also below `2 ^ 63` (the `i64` positive range),
decoding the sign byte followed by the little-endian magnitude yields the
magnitude itself for sign byte zero and its negation otherwise; an all-zero
magnitude decodes to 0 regardless of the sign byte.  (Magnitudes at or above
`2 ^ 63` wrap in the `i64` accumulator — see the counterexample.) -/
theorem read_int_sign_magnitude (k m sign : Nat) (rest : List Nat)
    (hk : 0 < k) (hm : m < 256 ^ k) (hm63 : m < 2 ^ 63) :
    read_int (sign :: (toLEBytes k m ++ rest)) k =
      .ok (if sign = 0 then (m : Int) else -(m : Int), rest) ∧
    read_int (sign :: (toLEBytes k 0 ++ rest)) k = .ok (0, rest) := by
  refine ⟨read_int_encode k m sign rest hk hm hm63, ?_⟩
  have h := read_int_encode k 0 sign rest hk (by positivity) (by positivity)
  simpa using h

/-- C6 witness: with `int_size = 2`, sign byte 1 and magnitude 513 the
decoder returns −513 (the crate's own `read_int` test vector). -/
theorem read_int_sign_magnitude_witness :
    (0 < 2 ∧ 513 < 256 ^ 2 ∧ 513 < 2 ^ 63) ∧
    read_int (1 :: (toLEBytes 2 513 ++ [])) 2 = .ok (-(513 : Int), []) := by
  refine ⟨⟨by norm_num, by norm_num, by norm_num⟩, ?_⟩
  have h := (read_int_sign_magnitude 2 513 1 []
    (by norm_num) (by norm_num) (by norm_num)).1
  simpa using h

set_option maxRecDepth 4000 in
/-- C6 counterexample: at `int_size = 8` the magnitude `2 ^ 63` is
representable in 8 bytes, yet with sign byte 0 the `i64` accumulator wraps
and the decoder returns `-(2 ^ 63)` instead of the magnitude. -/
theorem read_int_wraps_at_two_pow_63 :
    read_int [0, 0, 0, 0, 0, 0, 0, 0, 0x80] 8 = .ok (-(2 ^ 63 : Int), []) ∧
    leValue [0, 0, 0, 0, 0, 0, 0, 0x80] = 2 ^ 63 ∧
    (-(2 ^ 63 : Int) ≠ (2 ^ 63 : Int)) := by
  refine ⟨by decide, by decide, by decide⟩

/-- C2 (amended): for every configured `offset_size` with
`0 < offset_size ≤ 8` and a stream holding a tag byte followed by
`offset_size` magnitude bytes, `read_offset` consumes exactly
`1 + offset_size` bytes (the remaining stream is exactly `rest`) whatever
the tag is; tags 0, 1, 3 ignore the magnitude and yield `Unknown`,
`PosNotSet`, `NoData`; tag 2 yields `PosSet` of the little-endian magnitude
value; any tag ≥ 4 fails with the invalid-tag error.  (For `offset_size > 8`
the shift masking breaks the little-endian reading — see the
counterexample.) -/
theorem read_offset_spec (cfg : ReadConfig) (t : Nat) (mag rest : List Nat)
    (h1 : 0 < cfg.offset_size) (h8 : cfg.offset_size ≤ 8)
    (hlen : mag.length = cfg.offset_size) (hbytes : ∀ b ∈ mag, b < 256) :
    (t = 0 → cfg.read_offset (t :: (mag ++ rest)) = .ok (Offset.Unknown, rest)) ∧
    (t = 1 → cfg.read_offset (t :: (mag ++ rest)) = .ok (Offset.PosNotSet, rest)) ∧
    (t = 2 → cfg.read_offset (t :: (mag ++ rest)) =
      .ok (Offset.PosSet (leValue mag), rest)) ∧
    (t = 3 → cfg.read_offset (t :: (mag ++ rest)) = .ok (Offset.NoData, rest)) ∧
    (4 ≤ t → cfg.read_offset (t :: (mag ++ rest)) =
      .error ("invalid offset type")) := by
  have hre : readExact (cfg.offset_size + 1) (t :: (mag ++ rest)) =
      .ok (t :: mag, rest) := by
    simp only [readExact]
    rw [if_pos (by simp [List.length_append, ← hlen])]
    simp only [List.take_succ_cons, List.drop_succ_cons,
      List.take_left' hlen, List.drop_left' hlen]
  have haccum : accumOffset mag 0 0 = leValue mag := by
    have h := accumOffset_eq mag 0 0 hbytes (by omega) (by norm_num)
    simpa using h
  refine ⟨?_, ?_, ?_, ?_, ?_⟩
  · intro ht
    subst ht
    simp only [ReadConfig.read_offset, if_neg (by omega : ¬cfg.offset_size = 0),
      hre, List.headD, List.tail]
  · intro ht
    subst ht
    simp only [ReadConfig.read_offset, if_neg (by omega : ¬cfg.offset_size = 0),
      hre, List.headD, List.tail]
  · intro ht
    subst ht
    simp only [ReadConfig.read_offset, if_neg (by omega : ¬cfg.offset_size = 0),
      hre, List.headD, List.tail, haccum]
  · intro ht
    subst ht
    simp only [ReadConfig.read_offset, if_neg (by omega : ¬cfg.offset_size = 0),
      hre, List.headD, List.tail]
  · intro ht
    obtain ⟨u, rfl⟩ : ∃ u, t = u + 4 := ⟨t - 4, by omega⟩
    simp only [ReadConfig.read_offset, if_neg (by omega : ¬cfg.offset_size = 0),
      hre, List.headD, List.tail]

/-- C2 witness: `offset_size = 2`, tag 2, magnitude bytes `[1, 2]` decode to
`PosSet 513` with the stream fully consumed (the crate's own `read_offset`
test vector). -/
theorem read_offset_spec_witness :
    (0 < 2 ∧ 2 ≤ 8 ∧ ([1, 2] : List Nat).length = 2) ∧
    (ReadConfig.mk 4 2).read_offset (2 :: ([1, 2] ++ [])) =
      .ok (Offset.PosSet 513, []) := by
  refine ⟨⟨by norm_num, by norm_num, by decide⟩, ?_⟩
  have h := (read_offset_spec ⟨4, 2⟩ 2 [1, 2] []
    (by norm_num) (by norm_num) (by decide) (by decide)).2.2.1 rfl
  simpa [leValue] using h

/-- C2 counterexample: with `offset_size = 9` (settable from the stream) the
shift amount is masked modulo 64, so magnitude bytes whose little-endian
value is `2 ^ 64` decode to `PosSet 1` — not `PosSet` of the little-endian
value, which cannot even fit in the `u64` offset. -/
theorem read_offset_masks_wide_offsets :
    (ReadConfig.mk 4 9).read_offset [2, 0, 0, 0, 0, 0, 0, 0, 0, 1] =
      .ok (Offset.PosSet 1, []) ∧
    leValue [0, 0, 0, 0, 0, 0, 0, 0, 1] = 2 ^ 64 ∧
    (1 : Nat) ≠ 2 ^ 64 := by
  refine ⟨by decide, by decide, by decide⟩

/-- C5: `read_string` first decodes a varint length; length exactly −1
yields the empty string consuming no body bytes (the remaining stream is
exactly the post-length stream); any length below −1 fails with the
invalid-length error; a non-negative length `n` reads exactly `n` body
bytes, failing with the encoding error when they are not valid UTF-8 and
yielding exactly those `n` bytes otherwise. -/
theorem read_string_length_spec (cfg : ReadConfig) (s s1 : List Nat) (n : Int)
    (h : cfg.read_int s = .ok (n, s1)) :
    (n = -1 → cfg.read_string s = .ok ([], s1)) ∧
    (n < -1 → cfg.read_string s = .error ("invalid string length")) ∧
    (0 ≤ n → n.toNat ≤ s1.length →
      (validUtf8 (s1.take n.toNat) = true →
        cfg.read_string s = .ok (s1.take n.toNat, s1.drop n.toNat)) ∧
      (validUtf8 (s1.take n.toNat) = false →
        cfg.read_string s = .error ("invalid utf-8 sequence"))) := by
  refine ⟨?_, ?_, ?_⟩
  · intro hn
    subst hn
    simp only [ReadConfig.read_string, h]
    simp
  · intro hn
    simp only [ReadConfig.read_string, h]
    rw [if_neg (by omega), if_pos (by omega)]
  · intro h0 hle
    have hexact : readExact n.toNat s1 = .ok (s1.take n.toNat, s1.drop n.toNat) := by
      simp only [readExact, if_pos hle]
    constructor
    · intro hv
      simp only [ReadConfig.read_string, h]
      rw [if_neg (by omega), if_neg (by omega)]
      simp only [hexact, hv, if_true]
    · intro hv
      simp only [ReadConfig.read_string, h]
      rw [if_neg (by omega), if_neg (by omega)]
      simp only [hexact, hv]
      simp

/-- C5 witness: with `int_size = 2`, length −1 yields the empty string,
length −2 fails, and length 13 reads exactly the 13 body bytes of
`"hello, world!"` (the crate's own `read_string` test vectors). -/
theorem read_string_length_spec_witness :
    ((ReadConfig.mk 2 8).read_int [1, 1, 0, 9, 9] = .ok (-1, [9, 9]) ∧
      (ReadConfig.mk 2 8).read_string [1, 1, 0, 9, 9] = .ok ([], [9, 9])) ∧
    ((ReadConfig.mk 2 8).read_int [1, 2, 0] = .ok (-2, []) ∧
      (ReadConfig.mk 2 8).read_string [1, 2, 0] = .error ("invalid string length")) ∧
    (ReadConfig.mk 2 8).read_string
        [0, 13, 0, 104, 101, 108, 108, 111, 44, 32, 119, 111, 114, 108, 100, 33] =
      .ok ([104, 101, 108, 108, 111, 44, 32, 119, 111, 114, 108, 100, 33], []) := by
  refine ⟨⟨by decide, ?_⟩, ⟨by decide, ?_⟩, ?_⟩
  · exact (read_string_length_spec ⟨2, 8⟩ [1, 1, 0, 9, 9] [9, 9] (-1)
      (by decide)).1 rfl
  · exact (read_string_length_spec ⟨2, 8⟩ [1, 2, 0] [] (-2)
      (by decide)).2.1 (by norm_num)
  · have h := ((read_string_length_spec ⟨2, 8⟩
      [0, 13, 0, 104, 101, 108, 108, 111, 44, 32, 119, 111, 114, 108, 100, 33]
      [104, 101, 108, 108, 111, 44, 32, 119, 111, 114, 108, 100, 33] 13
      (by decide)).2.2 (by norm_num) (by decide)).1 (by decide)
    simpa using h

/-- C1 (amended): in `Archive::parse` the legacy (pre-1.15) integer
compression field maps `-1 ⇒ ZSTD`, `0 ⇒ None`, `1..=9 ⇒ Gzip(level)`, and
every other value to the invalid-data error; in the older `Header::parse`
revision the field maps `0 ⇒ None` and every nonzero value to `Gzip`. -/
theorem legacy_compression_mapping (c : Int) :
    (c = -1 → legacyCompression c = .ok CompressionMethod.ZSTD) ∧
    (c = 0 → legacyCompression c = .ok CompressionMethod.None) ∧
    (1 ≤ c → c ≤ 9 → legacyCompression c = .ok (CompressionMethod.Gzip c)) ∧
    (c < -1 → legacyCompression c =
      .error (ArchiveError.InvalidData ("invalid compression method"))) ∧
    (9 < c → legacyCompression c =
      .error (ArchiveError.InvalidData ("invalid compression method"))) ∧
    (c ≠ 0 → headerLegacyCompression c = HCompressionMethod.Gzip) ∧
    (c = 0 → headerLegacyCompression c = HCompressionMethod.None) := by
  unfold legacyCompression headerLegacyCompression
  refine ⟨?_, ?_, ?_, ?_, ?_, ?_, ?_⟩
  · intro h
    subst h
    simp
  · intro h
    subst h
    norm_num
  · intro h1 h9
    rw [if_neg (by omega), if_neg (by omega), if_pos ⟨h1, h9⟩]
  · intro h
    rw [if_neg (by omega), if_neg (by omega), if_neg (by omega)]
  · intro h
    rw [if_neg (by omega), if_neg (by omega), if_neg (by omega)]
  · intro h
    rw [if_pos h]
  · intro h
    subst h
    simp

/-- C1 witness: the five mapping rows at concrete field values −1, 0, 5 and
10, for both revisions. -/
theorem legacy_compression_mapping_witness :
    legacyCompression (-1) = .ok CompressionMethod.ZSTD ∧
    legacyCompression 0 = .ok CompressionMethod.None ∧
    legacyCompression 5 = .ok (CompressionMethod.Gzip 5) ∧
    legacyCompression 10 =
      .error (ArchiveError.InvalidData ("invalid compression method")) ∧
    headerLegacyCompression 5 = HCompressionMethod.Gzip ∧
    headerLegacyCompression 0 = HCompressionMethod.None :=
  ⟨(legacy_compression_mapping (-1)).1 rfl,
   (legacy_compression_mapping 0).2.1 rfl,
   (legacy_compression_mapping 5).2.2.1 (by norm_num) (by norm_num),
   (legacy_compression_mapping 10).2.2.2.2.1 (by norm_num),
   (legacy_compression_mapping 5).2.2.2.2.2.1 (by norm_num),
   (legacy_compression_mapping 0).2.2.2.2.2.2 rfl⟩

set_option maxRecDepth 10000 in
/-- C1 counterexample: a complete version-1.14 archive whose legacy
compression field holds −1 (a nonzero value) parses successfully with
compression method `ZSTD`, not `Gzip` — the byte stream is the crate's own
`v14_header` test vector with empty strings and an empty TOC. -/
theorem archive_legacy_minus_one_is_zstd :
    Archive.parse
        [80, 71, 68, 77, 80, 1, 14, 0, 4, 8, 1, 1, 1, 0, 0, 0,
         0, 20, 0, 0, 0, 0, 53, 0, 0, 0, 0, 7, 0, 0, 0, 0, 24, 0, 0, 0,
         0, 10, 0, 0, 0, 0, 122, 0, 0, 0, 0, 0, 0, 0, 0,
         1, 1, 0, 0, 0, 1, 1, 0, 0, 0, 1, 1, 0, 0, 0, 0, 0, 0, 0, 0] =
      .ok ⟨(1, 14, 0), CompressionMethod.ZSTD, ⟨2022, 11, 24, 7, 53, 20⟩,
        [], [], [], [], ⟨4, 8⟩⟩ ∧
    ((-1 : Int) ≠ 0) ∧
    CompressionMethod.ZSTD ≠ CompressionMethod.Gzip (-1) := by
  refine ⟨by decide, by decide, by decide⟩

/-- C3 (amended): the dependency list is a loop of length-prefixed decimal
strings in which the empty string terminates the loop and is never included
in the result; every dependency string must parse as a signed base-10 `i64`
(`i64::from_str_radix` accepts a `-` sign, so negative ids are accepted, not
rejected), and a string that does not parse as an integer fails the entry
decode with the invalid-dependency error. -/
theorem toc_dependencies_spec (cfg : ReadConfig) (s : List Nat) :
    (∀ s1, cfg.read_string s = .ok ([], s1) → readDeps cfg s = .ok ([], s1)) ∧
    (∀ d s1, cfg.read_string s = .ok (d, s1) → d ≠ [] →
      i64FromStrRadix10 d = Option.none →
      readDeps cfg s = .error (ArchiveError.InvalidData ("invalid dependency id"))) ∧
    (∀ d s1 v deps s2, cfg.read_string s = .ok (d, s1) → d ≠ [] →
      i64FromStrRadix10 d = some v → readDeps cfg s1 = .ok (deps, s2) →
      readDeps cfg s = .ok (v :: deps, s2)) := by
  refine ⟨?_, ?_, ?_⟩
  · intro s1 h
    rw [readDeps, h]
    simp
  · intro d s1 h hd hp
    rw [readDeps, h]
    simp only []
    rw [if_neg hd, hp]
  · intro d s1 v deps s2 h hd hp hrec
    rw [readDeps, h]
    simp only []
    rw [if_neg hd, hp]
    simp only []
    rw [hrec]

/-- C3 witness: the dependency string `"5"` decodes to id 5 and the empty
string terminates the loop without being included. -/
theorem toc_dependencies_spec_witness :
    ReadConfig.read_string ⟨2, 8⟩ [0, 1, 0, 0x35, 1, 1, 0] =
      .ok ([0x35], [1, 1, 0]) ∧
    i64FromStrRadix10 [0x35] = some 5 ∧
    readDeps ⟨2, 8⟩ [1, 1, 0] = .ok ([], []) ∧
    readDeps ⟨2, 8⟩ [0, 1, 0, 0x35, 1, 1, 0] = .ok ([5], []) := by
  have hterm := (toc_dependencies_spec ⟨2, 8⟩ [1, 1, 0]).1 [] (by decide)
  refine ⟨by decide, by decide, hterm, ?_⟩
  exact (toc_dependencies_spec ⟨2, 8⟩ [0, 1, 0, 0x35, 1, 1, 0]).2.2
    [0x35] [1, 1, 0] 5 [] [] (by decide) (by decide) (by decide) hterm

/-- C3 counterexample: the dependency string `"-5"` does not parse as a
non-negative integer, yet the entry decode does not fail — the negative id
−5 is accepted into the dependency list (`ID` is `i64` and
`i64::from_str_radix` accepts the sign). -/
theorem toc_dependencies_accept_negative :
    readDeps ⟨2, 8⟩ [0, 2, 0, 0x2D, 0x35, 1, 1, 0] = .ok ([-5], []) ∧
    ((-5 : Int) < 0) := by
  refine ⟨?_, by norm_num⟩
  have h1 : ReadConfig.read_string ⟨2, 8⟩ [0, 2, 0, 0x2D, 0x35, 1, 1, 0] =
      .ok ([0x2D, 0x35], [1, 1, 0]) := by decide
  have h2 : ReadConfig.read_string ⟨2, 8⟩ [1, 1, 0] = .ok ([], []) := by decide
  have hrec : readDeps ⟨2, 8⟩ [1, 1, 0] = .ok ([], []) := by
    rw [readDeps, h2]
    decide
  rw [readDeps, h1]
  simp only []
  rw [hrec]
  decide

/-- C7: opening a TOC entry's data is determined by the offset tag:
`Unknown` and `PosNotSet` fail with `NoDataPresent`; `NoData` yields an
immediately exhausted reader over the unmoved file (same cursor — no seek)
whose every read returns zero bytes; `PosSet p` seeks to `p`, reads one
block-type tag byte and one discarded varint id, then fails with
`BlobNotSupported` on tag 3, fails with the invalid-block-type error on any
tag other than 1 or 3 (before the id is even read), and succeeds in
streaming mode on tag 1. -/
theorem read_data_offset_dispatch (cfg : ReadConfig) (f : FileState) :
    (cfg.read_data f Offset.Unknown = .error ArchiveError.NoDataPresent) ∧
    (cfg.read_data f Offset.PosNotSet = .error ArchiveError.NoDataPresent) ∧
    (cfg.read_data f Offset.NoData = .ok (DataReader.empty f) ∧
      (DataReader.empty f).file = f ∧
      ∀ n, (DataReader.empty f).read n = .ok ([], DataReader.empty f)) ∧
    (∀ p t rest2, f.data.drop p = t :: rest2 →
      (blockTypeFromByte t = Option.none →
        cfg.read_data f (Offset.PosSet p) =
          .error (ArchiveError.InvalidData ("invalid block type"))) ∧
      (∀ v f3, FileState.read_int ⟨f.data, p + 1⟩ cfg.int_size = .ok (v, f3) →
        (t = 3 → cfg.read_data f (Offset.PosSet p) =
          .error ArchiveError.BlobNotSupported) ∧
        (t = 1 → cfg.read_data f (Offset.PosSet p) =
          .ok (DataReader.new f3 cfg.int_size)))) := by
  obtain ⟨data, pos⟩ := f
  refine ⟨rfl, rfl, ⟨rfl, rfl, fun n => DataReader_read_eof _ n rfl⟩, ?_⟩
  intro p t rest2 hdrop
  constructor
  · intro hbt
    simp only [ReadConfig.read_data, FileState.read_byte]
    rw [hdrop]
    simp only [hbt]
  · intro v f3 hri
    constructor
    · intro ht
      subst ht
      simp only [ReadConfig.read_data, FileState.read_byte]
      rw [hdrop]
      simp only [blockTypeFromByte]
      norm_num
      rw [hri]
    · intro ht
      subst ht
      simp only [ReadConfig.read_data, FileState.read_byte]
      rw [hdrop]
      simp only [blockTypeFromByte]
      norm_num
      rw [hri]

/-- C7 witness: with the cursor initially at position 9, a `PosSet 0` offset
seeks to 0, finds block-type tag 1 (data) and a zero id, and yields a
streaming reader positioned after the id; an `Unknown` offset fails with
`NoDataPresent`. -/
theorem read_data_offset_dispatch_witness :
    (([1, 0, 0, 0] : List Nat).drop 0 = 1 :: [0, 0, 0] ∧
      FileState.read_int ⟨[1, 0, 0, 0], 0 + 1⟩ 2 = .ok (0, ⟨[1, 0, 0, 0], 4⟩)) ∧
    (ReadConfig.mk 2 8).read_data ⟨[1, 0, 0, 0], 9⟩ (Offset.PosSet 0) =
      .ok (DataReader.new ⟨[1, 0, 0, 0], 4⟩ 2) ∧
    (ReadConfig.mk 2 8).read_data ⟨[1, 0, 0, 0], 9⟩ Offset.Unknown =
      .error ArchiveError.NoDataPresent := by
  have h := read_data_offset_dispatch ⟨2, 8⟩ ⟨[1, 0, 0, 0], 9⟩
  refine ⟨⟨by decide, by decide⟩, ?_, h.1⟩
  exact ((h.2.2.2 0 1 [0, 0, 0] (by decide)).2 0 ⟨[1, 0, 0, 0], 4⟩
    (by decide)).2 rfl

/-- C8: the data-block reader yields exactly the concatenation of the chunk
payloads of a well-formed chunk sequence (each chunk a nonempty payload
whose varint length fits the configured width, terminated by a zero-length
chunk), and after exhaustion every further read returns zero bytes without
error. -/
theorem data_reader_chunk_stream (k n : Nat) (cs : List (List Nat))
    (data : List Nat) (pos : Nat) (rest : List Nat) (hk : 0 < k)
    (hwf : ∀ c ∈ cs, c ≠ [] ∧ c.length < 256 ^ k ∧ c.length < 2 ^ 63 ∧
      c.length ≤ n)
    (hdata : data.drop pos = encodeChunkSeq k cs ++ rest) :
    readAll (cs.length + 1) (DataReader.new ⟨data, pos⟩ k) n = .ok cs.flatten ∧
    (∀ r : DataReader, r.eof = true → ∀ m, r.read m = .ok ([], r)) :=
  ⟨readAll_encodeChunkSeq k n hk cs data pos rest hwf hdata,
   fun r hr m => DataReader_read_eof r m hr⟩

/-- C8 witness: the chunk sequence `[len=3, "abc"][len=0]` (with
`int_size = 4`) decodes end to end to exactly the 3 bytes `"abc"`, and a
read on an exhausted reader returns zero bytes without error. -/
theorem data_reader_chunk_stream_witness :
    (([0, 3, 0, 0, 0, 97, 98, 99, 0, 0, 0, 0, 0] : List Nat).drop 0 =
      encodeChunkSeq 4 [[97, 98, 99]] ++ []) ∧
    readAll 2
        (DataReader.new ⟨[0, 3, 0, 0, 0, 97, 98, 99, 0, 0, 0, 0, 0], 0⟩ 4) 100 =
      .ok [97, 98, 99] ∧
    (DataReader.empty ⟨[], 0⟩).read 100 = .ok ([], DataReader.empty ⟨[], 0⟩) := by
  have h := data_reader_chunk_stream 4 100 [[97, 98, 99]]
    [0, 3, 0, 0, 0, 97, 98, 99, 0, 0, 0, 0, 0] 0 [] (by norm_num)
    (by
      intro c hc
      simp only [List.mem_singleton] at hc
      subst hc
      exact ⟨by simp, by norm_num, by norm_num, by norm_num⟩)
    (by decide)
  exact ⟨by decide, by simpa using h.1, h.2 (DataReader.empty ⟨[], 0⟩) rfl 100⟩

/-- C10 (amended): `Archive::parse` treats the stored month as 0-indexed —
whenever the date assembly succeeds, the resulting month is the stored
month plus one truncated to `u32`, so a stored month of 0 yields January;
every stored month in `[12, 2 ^ 32 - 1)` fails the parse with the
invalid-creation-date error (values from `2 ^ 32 - 1` up wrap modulo
`2 ^ 32` — see the counterexample); the older `Header::parse` revision uses
the stored month directly (1-indexed, truncated to `u32`). -/
theorem create_date_month_semantics :
    (∀ cs cm ch cd cmon cy : Int, ∀ r : DateTime,
      assemble_create_date cs cm ch cd cmon cy = .ok r →
      r.month = toU32 (cmon + 1)) ∧
    (∀ cs cm ch cd cmon cy : Int, 12 ≤ cmon → cmon < 2 ^ 32 - 1 →
      assemble_create_date cs cm ch cd cmon cy =
        .error (ArchiveError.InvalidData ("invalid creation date"))) ∧
    (∀ cs cm ch cd cy : Int, ∀ r : DateTime,
      assemble_create_date cs cm ch cd 0 cy = .ok r → r.month = 1) ∧
    (∀ cs cm ch cd cmon cy : Int, ∀ r : DateTime,
      header_assemble_create_date cs cm ch cd cmon cy = .ok r →
      r.month = toU32 cmon) := by
  have key : ∀ cs cm ch cd cmon cy : Int, ∀ r : DateTime,
      assemble_create_date cs cm ch cd cmon cy = .ok r →
      r.month = toU32 (cmon + 1) := by
    intro cs cm ch cd cmon cy r h
    simp only [assemble_create_date] at h
    split at h
    · split at h
      · rw [← Except.ok.inj h]
      · exact Except.noConfusion h
    · exact Except.noConfusion h
  refine ⟨key, ?_, ?_, ?_⟩
  · intro cs cm ch cd cmon cy h12 hlt
    have h13 : 13 ≤ toU32 (cmon + 1) := by
      unfold toU32
      have e : (2 : Int) ^ 32 = 4294967296 := by norm_num
      rw [e]
      rw [e] at hlt
      omega
    simp only [assemble_create_date]
    rw [if_neg ?_]
    intro hv
    obtain ⟨hm1, hm2, hrest⟩ := hv
    omega
  · intro cs cm ch cd cy r h
    have hm := key cs cm ch cd 0 cy r h
    rw [hm]
    rfl
  · intro cs cm ch cd cmon cy r h
    simp only [header_assemble_create_date] at h
    split at h
    · split at h
      · rw [← Except.ok.inj h]
      · exact Except.noConfusion h
    · exact Except.noConfusion h

/-- C10 witness: stored month 10 assembles to November (11 = 10 + 1) in the
newer revision and to October (10) in the older revision, and stored month
12 fails the newer revision's date assembly. -/
theorem create_date_month_semantics_witness :
    (assemble_create_date 20 53 7 24 10 122 = .ok ⟨2022, 11, 24, 7, 53, 20⟩ ∧
      (⟨2022, 11, 24, 7, 53, 20⟩ : DateTime).month = toU32 (10 + 1)) ∧
    ((12 : Int) ≤ 12 ∧ (12 : Int) < 2 ^ 32 - 1 ∧
      assemble_create_date 0 0 0 24 12 122 =
        .error (ArchiveError.InvalidData ("invalid creation date"))) ∧
    (header_assemble_create_date 20 53 7 24 10 122 =
        .ok ⟨2022, 10, 24, 7, 53, 20⟩ ∧
      (⟨2022, 10, 24, 7, 53, 20⟩ : DateTime).month = toU32 10) := by
  refine ⟨⟨by decide, ?_⟩, ⟨by norm_num, by norm_num, ?_⟩, ⟨by decide, ?_⟩⟩
  · exact create_date_month_semantics.1 20 53 7 24 10 122
      ⟨2022, 11, 24, 7, 53, 20⟩ (by decide)
  · exact create_date_month_semantics.2.1 0 0 0 24 12 122
      (by norm_num) (by norm_num)
  · exact create_date_month_semantics.2.2.2 20 53 7 24 10 122
      ⟨2022, 10, 24, 7, 53, 20⟩ (by decide)

set_option maxRecDepth 10000 in
/-- C10 counterexample: a complete version-1.14 archive with `int_size = 5`
whose stored month field is `2 ^ 32` (≥ 12) parses successfully — the
`as u32` cast wraps `2 ^ 32 + 1` to 1, producing January — so "a stored
month of 12 or higher fails the parse" is false as stated. -/
theorem archive_month_wraps_at_two_pow_32 :
    read_int [0, 0, 0, 0, 0, 1] 5 = .ok (2 ^ 32, []) ∧
    ((12 : Int) ≤ 2 ^ 32) ∧
    Archive.parse
        [80, 71, 68, 77, 80, 1, 14, 0, 5, 8, 1, 0, 0, 0, 0, 0, 0,
         0, 0, 0, 0, 0, 0, 0, 0, 0, 0, 0, 0, 0, 0, 0, 0, 0, 0,
         0, 24, 0, 0, 0, 0, 0, 0, 0, 0, 0, 1, 0, 122, 0, 0, 0, 0,
         0, 0, 0, 0, 0, 0,
         1, 1, 0, 0, 0, 0, 1, 1, 0, 0, 0, 0, 1, 1, 0, 0, 0, 0,
         0, 0, 0, 0, 0, 0] =
      .ok ⟨(1, 14, 0), CompressionMethod.None, ⟨2022, 1, 24, 0, 0, 0⟩,
        [], [], [], [], ⟨5, 8⟩⟩ := by
  refine ⟨by decide, by norm_num, by decide⟩

end PgArchive
